import Mathlib

/-!
Shallow embedding of the trip-detection engine of
`src/src/analysis/trip_detector.py` together with the relevant parts of the
ORM schema in `src/src/core/database.py`.

Modelling conventions:
* timestamps are seconds since the epoch (`Nat`); `EXTRACT(HOUR FROM t)` is
  `t % 86400 / 3600` and `.date()` is `t / 86400` (a fixed UTC-like zone);
* SQL `Float` columns and PostGIS distances are rationals (`ℚ`);
* a nullable column is an `Option`; Python truthiness of an optional string
  (`if place_id:`) is `pyTruthyStr`, which is false on `none` and on `""`;
* `ST_Distance` is an external oracle: a field `dist : Loc → Loc → ℚ`
  (metres) of the repository value;
* the SQL `ORDER BY start_time` of the detector queries is embedded as an
  insertion sort on the fetched list;
* a CPython `set` of strings iterates in a hash-dependent order.  The
  accumulated set is kept as its membership list in insertion order
  (`pySetAdd`), and `list(s)` is `pySetList rank s`: an enumeration of the
  members sorted by an arbitrary runtime rank, supplied as a parameter;
* the trip store (the `trips` table plus its destination and segment link
  rows) is a `List Trip`, appended to in insertion order.
-/

namespace GTA

/-- A geographic point (the payload of a PostGIS `Geography(POINT)` column). -/
abbrev Loc := ℚ × ℚ

/-- Python truthiness of an optional string: `None` and `""` are falsy. -/
def pyTruthyStr : Option String → Bool
  | none => false
  | some s => s ≠ ""

/-- `EXTRACT(HOUR FROM t)` for an epoch-seconds timestamp. -/
def hourOf (t : Nat) : Nat := t % 86400 / 3600

/-- `.date()` of an epoch-seconds timestamp, as a day number. -/
def dateOf (t : Nat) : Nat := t / 86400

/-- Row of `visits` (`VisitModel`): the payload a segment may carry. -/
structure Visit where
  place_id : Option String
  location : Option Loc
  deriving DecidableEq, Repr

/-- Row of `activities` (`ActivityModel`). -/
structure Activity where
  activity_type : String
  distance_meters : Option ℚ
  start_location : Option Loc
  deriving DecidableEq, Repr

/-- Row of `timeline_memories` (`TimelineMemoryModel`). -/
structure Memory where
  distance_from_origin_kms : Option ℚ
  destination_place_ids : Option (List String)
  deriving DecidableEq, Repr

/-- Row of `timeline_segments` (`TimelineSegment`), with its optional
one-to-one payloads joined in, as the ORM relationships expose them. -/
structure Seg where
  id : Nat
  segment_type : String
  start_time : Nat
  end_time : Nat
  visit : Option Visit
  activity : Option Activity
  memory : Option Memory
  deriving DecidableEq, Repr

/-- Row of `user_profile` (`UserProfileModel`). -/
structure Profile where
  home_place_id : Option String
  home_location : Option Loc
  deriving DecidableEq, Repr

/-- The segment repository: the stored timeline, the (first) user profile,
and the `ST_Distance` oracle. -/
structure Repo where
  segments : List Seg
  profile : Option Profile
  dist : Loc → Loc → ℚ

/-- A `trips` row together with its `trip_destinations` place ids (in
`visit_order`) and its `trip_segments` links (in `segment_order`). -/
structure Trip where
  start_time : Nat
  end_time : Nat
  is_multi_day : Bool
  total_distance_meters : ℚ
  primary_transport_mode : Option String
  detection_algorithm : String
  destinations : List String
  segment_ids : List Nat
  deriving DecidableEq, Repr

/-- The argument record of `_create_trip`. -/
structure TripSpec where
  start_time : Nat
  end_time : Nat
  segments : List Seg
  distance_meters : ℚ
  destinations : List String
  algorithm : String
  deriving Repr

/-- The `(mode, dist)` pairs contributed by the member segments:
`segment.activity.activity_type` with `segment.activity.distance_meters or 0`. -/
def segLabels (segs : List Seg) : List (String × ℚ) :=
  segs.filterMap fun s => s.activity.map fun a => (a.activity_type, a.distance_meters.getD 0)

/-- One `mode_distances[mode] += dist` step on the insertion-ordered
association list that models the `defaultdict(float)`. -/
def upsert (acc : List (String × ℚ)) (p : String × ℚ) : List (String × ℚ) :=
  if acc.any fun q => q.1 = p.1 then
    acc.map fun q => if q.1 = p.1 then (q.1, q.2 + p.2) else q
  else acc ++ [p]

/-- The `mode_distances` dictionary built by `_create_trip`. -/
def modeDistances (segs : List Seg) : List (String × ℚ) :=
  (segLabels segs).foldl upsert []

/-- Python `max(items, key=lambda x: x[1])`: the first item whose second
component is maximal (a later item replaces the current best only when
strictly greater). -/
def maxBySnd : List (String × ℚ) → Option (String × ℚ)
  | [] => none
  | x :: xs => some (xs.foldl (fun b y => if b.2 < y.2 then y else b) x)

/-- `primary_mode` as computed by `_create_trip` (`None` when no member
segment carries an activity payload, i.e. the dictionary is empty). -/
def primary_mode (segs : List Seg) : Option String :=
  (maxBySnd (modeDistances segs)).map fun p => p.1

/-- The trip row (with destination and segment-link rows) that
`_create_trip` persists. -/
def mkTrip (sp : TripSpec) : Trip :=
  { start_time := sp.start_time
    end_time := sp.end_time
    is_multi_day := dateOf sp.start_time < dateOf sp.end_time
    total_distance_meters := sp.distance_meters
    primary_transport_mode := primary_mode sp.segments
    detection_algorithm := sp.algorithm
    destinations := sp.destinations
    segment_ids := sp.segments.map fun s => s.id }

/-- The dedup lookup of `_create_trip`: is a trip with the identical
`(start_time, end_time, detection_algorithm)` triple already stored? -/
def hasKey (store : List Trip) (start_time end_time : Nat) (alg : String) : Bool :=
  store.any fun t =>
    t.start_time = start_time ∧ t.end_time = end_time ∧ t.detection_algorithm = alg

/-- `_create_trip`: look up the dedup key; return without writing when a
trip with the identical triple exists, otherwise persist the new trip. -/
def create_trip (store : List Trip) (sp : TripSpec) : List Trip :=
  if hasKey store sp.start_time sp.end_time sp.algorithm then store
  else store ++ [mkTrip sp]

/-- The dedup key of a stored trip. -/
def tripKey (t : Trip) : Nat × Nat × String :=
  (t.start_time, t.end_time, t.detection_algorithm)

/-- The trip store holds at most one row per dedup key. -/
def NoDupKeys (store : List Trip) : Prop :=
  (store.map tripKey).Nodup

/-- The `trip_destinations` rows written for one trip: primary key columns
`(trip_id, place_id)` plus `visit_order`, one row per destination-list entry
(`database.py`, `TripDestinationModel`). -/
def destRows (trip_id : Nat) (destinations : List String) : List ((Nat × String) × Nat) :=
  (destinations.enum).map fun p => ((trip_id, p.2), p.1)

/-- The composite primary key of `trip_destinations` admits a row set only
when the key columns are pairwise distinct. -/
def destRowsPkOk (trip_id : Nat) (destinations : List String) : Prop :=
  ((destRows trip_id destinations).map fun r => r.1).Nodup

/-- The date filters every detector applies to its segment query. -/
def rangeOk (sd ed : Option Nat) (s : Seg) : Bool :=
  (match sd with | none => true | some d => decide (d ≤ s.start_time)) &&
  (match ed with | none => true | some d => decide (s.end_time ≤ d))

/-- The `ORDER BY TimelineSegment.start_time` relation. -/
def segLE (a b : Seg) : Prop := a.start_time ≤ b.start_time

instance : DecidableRel segLE := fun a b => Nat.decLe a.start_time b.start_time

instance : IsTotal Seg segLE := ⟨fun a b => Nat.le_total a.start_time b.start_time⟩

instance : IsTrans Seg segLE := ⟨fun _ _ _ => Nat.le_trans⟩

/-- The chronological retrieval of the detector queries. -/
def sortByStart (segs : List Seg) : List Seg := segs.insertionSort segLE

/-- One loop iteration of `detect_timeline_memory_trips`: skip when the
dedup lookup finds a trip with the identical triple, otherwise persist and
count the new trip. -/
def tmStep (acc : Nat × List Trip) (s : Seg) : Nat × List Trip :=
  match s.memory with
  | none => acc
  | some m =>
    if hasKey acc.2 s.start_time s.end_time "timeline_memory" then acc
    else
      (acc.1 + 1,
       acc.2 ++ [{ start_time := s.start_time
                   end_time := s.end_time
                   is_multi_day := dateOf s.start_time < dateOf s.end_time
                   total_distance_meters := m.distance_from_origin_kms.getD 0 * 1000
                   primary_transport_mode := none
                   detection_algorithm := "timeline_memory"
                   destinations := m.destination_place_ids.getD []
                   segment_ids := [s.id] }])

/-- `detect_timeline_memory_trips`: replay every memory segment in range
into a trip, returning the count of newly created trips. -/
def detect_timeline_memory_trips (repo : Repo) (sd ed : Option Nat)
    (store : List Trip) : Nat × List Trip :=
  (repo.segments.filter fun s => s.memory.isSome && rangeOk sd ed s).foldl tmStep (0, store)

/-- The `is_home` classification of one segment in `detect_home_based_trips`
(lines 216–226): the coordinate branch applies when distance mode is active
and both locations are present; its result is Python-truthy only for a
non-`None`, non-zero distance below 1 km.  Otherwise the `elif` place-id
branch compares identifiers when the configured id is truthy. -/
def is_home_visit (dist : Loc → Loc → ℚ) (use_distance_based : Bool)
    (home_location : Option Loc) (home_place_id : Option String) (s : Seg) : Bool :=
  match s.visit with
  | none => false
  | some v =>
    match use_distance_based, v.location, home_location with
    | true, some vl, some hl =>
      let d := dist hl vl
      decide (d ≠ 0) && decide (d / 1000 < 1)
    | _, _, _ =>
      if pyTruthyStr home_place_id then v.place_id == home_place_id else false

/-- CPython `set.add` on the insertion-ordered membership list. -/
def pySetAdd (s : List String) (x : String) : List String :=
  if x ∈ s then s else s ++ [x]

/-- `list(s)` on a CPython string set: the members enumerated in the
runtime's hash order, modelled by an ambient rank. -/
def pySetList (rank : String → Nat) (s : List String) : List String :=
  s.insertionSort fun a b => rank a ≤ rank b

/-- The mutable accumulator of the home-based pass. -/
structure HBState where
  pending : List Seg
  distance : ℚ
  dests : List String
  specs : List TripSpec
  deriving Repr

/-- One loop iteration of `detect_home_based_trips`: a home visit closes a
non-empty pending run (bounds = first pending start to current start,
acceptance by distance and duration thresholds) and resets the accumulator;
any other segment joins the run, contributing activity distance and a
truthy visit place id. -/
def hbStep (dist : Loc → Loc → ℚ) (use_db : Bool) (hl : Option Loc)
    (hp : Option String) (min_distance_km min_duration_hours : ℚ)
    (rank : String → Nat) (st : HBState) (s : Seg) : HBState :=
  if is_home_visit dist use_db hl hp s then
    match st.pending with
    | [] => st
    | p :: ps =>
      let trip_start := p.start_time
      let trip_end := s.start_time
      let duration_hours := ((trip_end : ℚ) - (trip_start : ℚ)) / 3600
      let specs :=
        if min_distance_km ≤ st.distance / 1000 ∧ min_duration_hours ≤ duration_hours then
          st.specs ++ [{ start_time := trip_start
                         end_time := trip_end
                         segments := p :: ps
                         distance_meters := st.distance
                         destinations := pySetList rank st.dests
                         algorithm := "home_based" }]
        else st.specs
      { pending := [], distance := 0, dests := [], specs := specs }
  else
    { pending := st.pending ++ [s]
      distance := st.distance +
        (match s.activity with
         | some a => a.distance_meters.getD 0
         | none => 0)
      dests :=
        (match s.visit with
         | some v =>
           match v.place_id with
           | some p => if p ≠ "" then pySetAdd st.dests p else st.dests
           | none => st.dests
         | none => st.dests)
      specs := st.specs }

/-- The full streaming pass of `detect_home_based_trips` over an
already-ordered segment list. -/
def hbProcess (dist : Loc → Loc → ℚ) (use_db : Bool) (hl : Option Loc)
    (hp : Option String) (min_distance_km min_duration_hours : ℚ)
    (rank : String → Nat) (segs : List Seg) : HBState :=
  segs.foldl (hbStep dist use_db hl hp min_distance_km min_duration_hours rank)
    ⟨[], 0, [], []⟩

/-- `detect_home_based_trips`: no-op without a usable home reference; else
stream the ordered segments and materialize each accepted run through
`_create_trip` (whose calls only touch the trip store, so they are folded
after the pure pass). -/
def detect_home_based_trips (repo : Repo) (sd ed : Option Nat)
    (min_distance_km min_duration_hours : ℚ) (rank : String → Nat)
    (store : List Trip) : Nat × List Trip :=
  match repo.profile with
  | none => (0, store)
  | some profile =>
    if !pyTruthyStr profile.home_place_id && profile.home_location.isNone then
      (0, store)
    else
      let use_db := profile.home_place_id.isNone && profile.home_location.isSome
      let segs := sortByStart (repo.segments.filter (rangeOk sd ed))
      let st := hbProcess repo.dist use_db profile.home_location
        profile.home_place_id min_distance_km min_duration_hours rank segs
      (st.specs.length, st.specs.foldl create_trip store)

/-- The SQL-level overnight filters shared by both query shapes: a joined
visit row, start hour at least 20, end hour at most 8, duration at least
six hours. -/
def overnightBaseFilter (s : Seg) : Bool :=
  s.visit.isSome && decide (20 ≤ hourOf s.start_time) &&
    decide (hourOf s.end_time ≤ 8) && decide (6 * 3600 ≤ s.end_time - s.start_time)

/-- The distance-mode candidate query of `detect_overnight_trips`: the base
query post-filtered to visits with a location at a truthy distance of at
least 1 km from home. -/
def overnightCandidatesDist (repo : Repo) (sd ed : Option Nat)
    (home_location : Option Loc) : List Seg :=
  (sortByStart (repo.segments.filter fun s =>
      overnightBaseFilter s && rangeOk sd ed s)).filter fun s =>
    match s.visit, home_location with
    | some v, some hl =>
      match v.location with
      | some l =>
        let d := repo.dist hl l
        decide (d ≠ 0) && decide (1 ≤ d / 1000)
      | none => false
    | _, _ => false

/-- The place-id-mode candidate query of `detect_overnight_trips`: the base
query additionally requires a non-`NULL` place id different from the home id
(SQL `!=` is never true against `NULL`). -/
def overnightCandidatesPlace (repo : Repo) (sd ed : Option Nat)
    (home_place_id : Option String) : List Seg :=
  sortByStart (repo.segments.filter fun s =>
    (match s.visit with
     | some v =>
       match v.place_id, home_place_id with
       | some p, some hp => decide (p ≠ hp)
       | _, _ => false
     | none => false) && overnightBaseFilter s && rangeOk sd ed s)

/-- The candidate query of `detect_overnight_trips`, per resolved mode. -/
def overnightCandidates (repo : Repo) (sd ed : Option Nat) (profile : Profile) :
    List Seg :=
  let use_db := profile.home_place_id.isNone && profile.home_location.isSome
  if use_db then overnightCandidatesDist repo sd ed profile.home_location
  else overnightCandidatesPlace repo sd ed profile.home_place_id

/-- The greedy 48-hour grouping loop of `detect_overnight_trips`, including
the trailing flush that applies the `min_nights` acceptance test to the
current group even when it is empty. -/
def onGroups (min_nights : Nat) : List Seg → List Seg → List (List Seg)
  | cur, [] => if min_nights ≤ cur.length then [cur] else []
  | cur, s :: rest =>
    match cur with
    | [] => onGroups min_nights [s] rest
    | c :: cs =>
      if 48 * 3600 < s.start_time - ((c :: cs).getLast (List.cons_ne_nil c cs)).end_time then
        (if min_nights ≤ (c :: cs).length then [c :: cs] else []) ++
          onGroups min_nights [s] rest
      else onGroups min_nights (c :: cs ++ [s]) rest

/-- `_create_overnight_trip`: returns without writing on an empty visit
list; else materializes bounds = first start to last end, zero distance,
and one destination per candidate with a truthy place id, in encounter
order with duplicates retained. -/
def create_overnight_trip (store : List Trip) (g : List Seg) : List Trip :=
  match g with
  | [] => store
  | c :: cs =>
    create_trip store
      { start_time := c.start_time
        end_time := ((c :: cs).getLast (List.cons_ne_nil c cs)).end_time
        segments := c :: cs
        distance_meters := 0
        destinations := (c :: cs).filterMap fun s =>
          match s.visit with
          | some v => if pyTruthyStr v.place_id then v.place_id else none
          | none => none
        algorithm := "overnight" }

/-- `detect_overnight_trips`: no-op without a usable home reference; else
group the candidate visits and flush each accepted group (the returned
count counts accepted groups, not persisted trips). -/
def detect_overnight_trips (repo : Repo) (sd ed : Option Nat) (min_nights : Nat)
    (store : List Trip) : Nat × List Trip :=
  match repo.profile with
  | none => (0, store)
  | some profile =>
    if !pyTruthyStr profile.home_place_id && profile.home_location.isNone then
      (0, store)
    else
      let groups := onGroups min_nights [] (overnightCandidates repo sd ed profile)
      (groups.length, groups.foldl create_overnight_trip store)

/-- The representative point of a segment in `detect_distance_based_trips`:
a visit's location when present, else an activity's start location. -/
def repLoc (s : Seg) : Option Loc :=
  (s.visit.bind Visit.location).orElse fun _ => s.activity.bind Activity.start_location

/-- The greedy time-gap clustering loop of `detect_distance_based_trips`
(gap measured in signed hours), emitting only clusters of at least two
segments, including the trailing flush. -/
def dbClusters (time_gap_hours : ℚ) : List Seg → List Seg → List (List Seg)
  | cur, [] => if 2 ≤ cur.length then [cur] else []
  | cur, s :: rest =>
    match cur with
    | [] => dbClusters time_gap_hours [s] rest
    | c :: cs =>
      if ((s.start_time : ℚ) -
            (((c :: cs).getLast (List.cons_ne_nil c cs)).end_time : ℚ)) / 3600 ≤
          time_gap_hours then
        dbClusters time_gap_hours (c :: cs ++ [s]) rest
      else
        (if 2 ≤ (c :: cs).length then [c :: cs] else []) ++
          dbClusters time_gap_hours [s] rest

/-- `_create_clustered_trip`: summed activity distance, and the visited
truthy place ids deduplicated through a Python set (`list(set(...))`). -/
def create_clustered_trip (rank : String → Nat) (store : List Trip) (g : List Seg) :
    List Trip :=
  match g with
  | [] => store
  | c :: cs =>
    create_trip store
      { start_time := c.start_time
        end_time := ((c :: cs).getLast (List.cons_ne_nil c cs)).end_time
        segments := c :: cs
        distance_meters := (c :: cs).foldl
          (fun acc s =>
            acc + (match s.activity with
                   | some a => a.distance_meters.getD 0
                   | none => 0)) 0
        destinations := pySetList rank
          (((c :: cs).filterMap fun s =>
            match s.visit with
            | some v => if pyTruthyStr v.place_id then v.place_id else none
            | none => none).foldl pySetAdd [])
        algorithm := "distance_based" }

/-- `detect_distance_based_trips`: requires a home coordinate; selects the
segments of type visit or activity whose representative point is at a
truthy distance of at least the threshold from home, clusters them by time
gap, and materializes each accepted cluster. -/
def detect_distance_based_trips (repo : Repo) (sd ed : Option Nat)
    (distance_threshold_km time_gap_hours : ℚ) (rank : String → Nat)
    (store : List Trip) : Nat × List Trip :=
  match repo.profile with
  | none => (0, store)
  | some profile =>
    match profile.home_location with
    | none => (0, store)
    | some hl =>
      let segs := sortByStart (repo.segments.filter fun s =>
        (s.segment_type == "visit" || s.segment_type == "activity") && rangeOk sd ed s)
      let far := segs.filter fun s =>
        match repLoc s with
        | some l =>
          let d := repo.dist hl l
          decide (d ≠ 0) && decide (distance_threshold_km ≤ d / 1000)
        | none => false
      let clusters := dbClusters time_gap_hours [] far
      (clusters.length, clusters.foldl (create_clustered_trip rank) store)

/-- One detector invocation with its arguments (the runtime set-iteration
rank accompanies the detectors that enumerate a Python set). -/
inductive Call where
  | tm (sd ed : Option Nat)
  | hb (sd ed : Option Nat) (min_distance_km min_duration_hours : ℚ)
      (rank : String → Nat)
  | overnight (sd ed : Option Nat) (min_nights : Nat)
  | distance (sd ed : Option Nat) (distance_threshold_km time_gap_hours : ℚ)
      (rank : String → Nat)

/-- Run one detector invocation against the repository and trip store. -/
def runCall (repo : Repo) (store : List Trip) : Call → Nat × List Trip
  | .tm sd ed => detect_timeline_memory_trips repo sd ed store
  | .hb sd ed mk mh rank => detect_home_based_trips repo sd ed mk mh rank store
  | .overnight sd ed mn => detect_overnight_trips repo sd ed mn store
  | .distance sd ed th gap rank => detect_distance_based_trips repo sd ed th gap rank store

/-- Run a sequence of detector invocations, threading the trip store. -/
def runCalls (repo : Repo) (store : List Trip) (calls : List Call) : List Trip :=
  calls.foldl (fun st c => (runCall repo st c).2) store

/-- Well-formed repository: every stored segment has `end_time ≥ start_time`
(the segment data model of the spec). -/
def WFRepo (repo : Repo) : Prop :=
  ∀ s ∈ repo.segments, s.start_time ≤ s.end_time

/-! Spec-side definitions.  `spec_primary_mode` follows the spec sentence
"groups member segments' activity distances by movement-mode label, sums per
label, picks the label with the largest summed distance; ties broken by
first-encountered label in segment order; if no segment carries an activity
payload, primary mode is absent", and `claim_overnight_candidate` follows the
claimed disjunctive night-window predicate; both exist to be compared against
the code-derived definitions. -/

/-- First-encounter deduplication of a list (spec side). -/
def dedupFirst (xs : List String) : List String :=
  xs.foldl (fun acc x => if x ∈ acc then acc else acc ++ [x]) []

/-- Modelled from the spec: the movement-mode labels in first-encounter
segment order. -/
def spec_label_list (segs : List Seg) : List String :=
  dedupFirst ((segLabels segs).map fun p => p.1)

/-- Modelled from the spec: the summed activity distance of one label. -/
def spec_sum_for (segs : List Seg) (l : String) : ℚ :=
  (((segLabels segs).filter fun p => p.1 = l).map fun p => p.2).sum

/-- Modelled from the spec: the first-encountered label whose summed
distance is maximal, absent when no segment carries an activity payload. -/
def spec_primary_mode (segs : List Seg) : Option String :=
  (spec_label_list segs).find? fun l =>
    (spec_label_list segs).all fun m => decide (spec_sum_for segs m ≤ spec_sum_for segs l)

/-- Modelled from the claim: overnight candidacy with the *disjunctive*
night window (duration at least 6 hours, identifier mismatch away-from-home,
start hour at least 20 OR end hour at most 8). -/
def claim_overnight_candidate (hp : String) (s : Seg) : Bool :=
  decide (6 * 3600 ≤ s.end_time - s.start_time) &&
  (match s.visit with
   | some v =>
     match v.place_id with
     | some p => decide (p ≠ hp)
     | none => false
   | none => false) &&
  (decide (20 ≤ hourOf s.start_time) || decide (hourOf s.end_time ≤ 8))

/-- The sum of the values of the entries of an association list carrying a
given key (the lookup of a `defaultdict(float)` with no-duplicate keys,
`0` when the key is absent). -/
def keyVal (D : List (String × ℚ)) (l : String) : ℚ :=
  ((D.filter fun p => p.1 = l).map fun p => p.2).sum

/-- The leftmost entry of maximal value of an association list. -/
def firstMax : List (String × ℚ) → Option (String × ℚ)
  | [] => none
  | p :: ps =>
    match firstMax ps with
    | none => some p
    | some r => if p.2 < r.2 then some r else some p

/-! Concrete fixtures for counterexamples and witnesses. -/

/-- A memory segment spanning 100–200 with two destinations. -/
def memSeg : Seg :=
  { id := 1, segment_type := "memory", start_time := 100, end_time := 200,
    visit := none, activity := none,
    memory := some { distance_from_origin_kms := some 5,
                     destination_place_ids := some ["A", "B"] } }

/-- A repository holding only `memSeg`. -/
def repoTM : Repo := { segments := [memSeg], profile := none, dist := fun _ _ => 0 }

/-- A zero-length memory segment (start = end = 100). -/
def memSegZero : Seg :=
  { id := 2, segment_type := "memory", start_time := 100, end_time := 100,
    visit := none, activity := none,
    memory := some { distance_from_origin_kms := none,
                     destination_place_ids := none } }

/-- A repository holding only the zero-length memory segment. -/
def repoZero : Repo := { segments := [memSegZero], profile := none, dist := fun _ _ => 0 }

/-- A place-id home profile at `"H"`. -/
def profH : Profile := { home_place_id := some "H", home_location := none }

/-- An away overnight visit starting at hour 21 and ending at hour 10 of the
next day (13 h duration): selected by the claimed disjunctive window, not by
the code's conjunctive filter. -/
def segNight : Seg :=
  { id := 3, segment_type := "visit", start_time := 75600, end_time := 122400,
    visit := some { place_id := some "P", location := none },
    activity := none, memory := none }

/-- A repository holding only `segNight`, with home `"H"`. -/
def repoNight : Repo :=
  { segments := [segNight], profile := some profH, dist := fun _ _ => 0 }

/-- First overnight visit at place `"P"` (20:00 to 08:00 next day). -/
def segOvernightA : Seg :=
  { id := 4, segment_type := "visit", start_time := 72000, end_time := 115200,
    visit := some { place_id := some "P", location := none },
    activity := none, memory := none }

/-- Second overnight visit at the same place `"P"`, 36 h later. -/
def segOvernightB : Seg :=
  { id := 5, segment_type := "visit", start_time := 244800, end_time := 288000,
    visit := some { place_id := some "P", location := none },
    activity := none, memory := none }

/-- A repository with two overnight visits at the same place. -/
def repoDupDest : Repo :=
  { segments := [segOvernightA, segOvernightB], profile := some profH,
    dist := fun _ _ => 0 }

/-- An empty-timeline repository with a place-id home. -/
def repoEmptyHome : Repo :=
  { segments := [], profile := some profH, dist := fun _ _ => 0 }

/-- Home visit at time 0 (place `"H"`). -/
def segHome0 : Seg :=
  { id := 6, segment_type := "visit", start_time := 0, end_time := 10,
    visit := some { place_id := some "H", location := none },
    activity := none, memory := none }

/-- Away visit at place `"b"` (encountered first). -/
def segAwayB : Seg :=
  { id := 7, segment_type := "visit", start_time := 20, end_time := 30,
    visit := some { place_id := some "b", location := none },
    activity := none, memory := none }

/-- Away visit at place `"a"` (encountered second). -/
def segAwayA : Seg :=
  { id := 8, segment_type := "visit", start_time := 40, end_time := 50,
    visit := some { place_id := some "a", location := none },
    activity := none, memory := none }

/-- Closing home visit at time 60. -/
def segHome1 : Seg :=
  { id := 9, segment_type := "visit", start_time := 60, end_time := 70,
    visit := some { place_id := some "H", location := none },
    activity := none, memory := none }

/-- Home-bracketed run visiting `"b"` then `"a"`. -/
def repoHomeRun : Repo :=
  { segments := [segHome0, segAwayB, segAwayA, segHome1], profile := some profH,
    dist := fun _ _ => 0 }

/-- A set-iteration rank enumerating `"a"` before `"b"`. -/
def rankAB : String → Nat := fun s => if s = "a" then 0 else 1

/-- A visit segment carrying a location. -/
def segVisitLoc : Seg :=
  { id := 10, segment_type := "visit", start_time := 0, end_time := 10,
    visit := some { place_id := none, location := some (1, 2) },
    activity := none, memory := none }

/-- A distance oracle that answers 0 for the point `(1, 2)` and 5000 m
otherwise. -/
def distZeroAtHome : Loc → Loc → ℚ :=
  fun _ y => if y = ((1 : ℚ), (2 : ℚ)) then 0 else 5000

/-- Coordinate-mode visit at the home coordinate itself (distance 0). -/
def segAtHomeCoord : Seg :=
  { id := 11, segment_type := "visit", start_time := 0, end_time := 10,
    visit := some { place_id := none, location := some (1, 2) },
    activity := none, memory := none }

/-- An away visit at `(9, 9)` (5000 m from home). -/
def segFarCoord : Seg :=
  { id := 12, segment_type := "visit", start_time := 20, end_time := 30,
    visit := some { place_id := some "F", location := some (9, 9) },
    activity := none, memory := none }

/-- A second visit at the home coordinate, closing the bracket under the
claimed classification. -/
def segAtHomeCoord2 : Seg :=
  { id := 13, segment_type := "visit", start_time := 40, end_time := 50,
    visit := some { place_id := none, location := some (1, 2) },
    activity := none, memory := none }

/-- Coordinate-mode repository: home at `(1, 2)`, a far visit bracketed by
two visits at the exact home coordinate. -/
def repoCoordHome : Repo :=
  { segments := [segAtHomeCoord, segFarCoord, segAtHomeCoord2],
    profile := some { home_place_id := none, home_location := some (1, 2) },
    dist := distZeroAtHome }

/-- A walking activity of 500 m (encountered first). -/
def segWalk : Seg :=
  { id := 14, segment_type := "activity", start_time := 0, end_time := 10,
    visit := none,
    activity := some { activity_type := "walking", distance_meters := some 500,
                       start_location := none },
    memory := none }

/-- A driving activity of 500 m (encountered second). -/
def segDrive : Seg :=
  { id := 15, segment_type := "activity", start_time := 20, end_time := 30,
    visit := none,
    activity := some { activity_type := "driving", distance_meters := some 500,
                       start_location := none },
    memory := none }

/-- A demonstration trip spec (used to exercise the dedup lookup). -/
def spDemo : TripSpec :=
  { start_time := 100, end_time := 200, segments := [], distance_meters := 0,
    destinations := ["A"], algorithm := "home_based" }

/-- The single trip materialized from `repoHomeRun` under `rankAB`. -/
def tripHomeRun : Trip :=
  { start_time := 20, end_time := 60, is_multi_day := false,
    total_distance_meters := 0, primary_transport_mode := none,
    detection_algorithm := "home_based", destinations := ["a", "b"],
    segment_ids := [7, 8] }

/-!  Theorems. -/

set_option maxRecDepth 8000

/-- C10: with an empty candidate set and `min_nights = 0`, the trailing
flush applies the acceptance test to the empty current group, so
`detect_overnight_trips` returns count 1 while `_create_overnight_trip`
writes nothing: the count counts accepted groups, not persisted trips. -/
theorem overnight_empty_group_counted :
    detect_overnight_trips repoEmptyHome none none 0 [] = (1, []) := by
  decide

/-- C7 (code evaluated at the failing input): an overnight group visiting
the same place twice yields a destination list with the place id retained
twice in encounter order, but such a row set violates the composite primary
key `(trip_id, place_id)` of `trip_destinations`, so the claimed persisted
duplicate destinations cannot be committed. -/
theorem overnight_duplicate_destinations_pk_violation :
    ((detect_overnight_trips repoDupDest none none 1 []).2.map fun t =>
      t.destinations) = [["P", "P"]] ∧
    ¬ destRowsPkOk 1 ["P", "P"] := by
  constructor
  · decide
  · unfold destRowsPkOk
    decide

/-- C2 counterexample: over the unchanged repository `repoTM`,
`detect_timeline_memory_trips` returns 1 on the first run and 0 on the
second (it counts newly created trips), so the two calls do not return the
same trip count. -/
theorem tm_idempotent_count_counterexample :
    (detect_timeline_memory_trips repoTM none none []).1 = 1 ∧
    (detect_timeline_memory_trips repoTM none none
      (detect_timeline_memory_trips repoTM none none []).2).1 = 0 := by
  constructor
  · with_unfolding_all decide
  · with_unfolding_all decide

/-- C9 counterexample: a memory segment with `end_time = start_time`
(permitted by the segment model) is promoted to a trip with
`end_time = start_time`, so `end > start` is not enforced. -/
theorem trip_end_equals_start_counterexample :
    ((detect_timeline_memory_trips repoZero none none []).2.map fun t =>
      (t.start_time, t.end_time)) = [(100, 100)] ∧
    ((detect_timeline_memory_trips repoZero none none []).2.all fun t =>
      decide (t.start_time < t.end_time)) = false := by
  constructor
  · with_unfolding_all decide
  · with_unfolding_all decide

/-- C3 counterexample: `segNight` (13 h visit from hour 21 to hour 10, away
from home) satisfies the claimed disjunctive night-window predicate, yet the
code's conjunctive SQL filter (start hour ≥ 20 AND end hour ≤ 8) selects no
candidate from the repository holding it. -/
theorem overnight_window_disjunctive_counterexample :
    claim_overnight_candidate "H" segNight = true ∧
    segNight ∈ repoNight.segments ∧
    overnightCandidates repoNight none none profH = [] := by
  refine ⟨by decide, by decide, by decide⟩

/-- C5 counterexample: in coordinate mode a visit at distance exactly 0
from the home coordinate is classified as *not* home (`distance and ...` is
falsy at 0.0), so the bracketed coordinate-mode stream of `repoCoordHome`
yields no trip although the claimed strict-threshold classification would
bracket one. -/
theorem home_distance_zero_counterexample :
    distZeroAtHome (1, 2) (1, 2) = 0 ∧
    is_home_visit distZeroAtHome true (some (1, 2)) none segAtHomeCoord = false ∧
    detect_home_based_trips repoCoordHome none none 0 0 rankAB [] = (0, []) := by
  refine ⟨by with_unfolding_all decide, by with_unfolding_all decide,
    by with_unfolding_all decide⟩

/-- C8 counterexample: the home-bracketed run of `repoHomeRun` visits `"b"`
then `"a"`, but the destination list handed to materialization is produced
from a Python set, so under the set-iteration rank `rankAB` it comes out as
`["a", "b"]`, not in first-encounter order `["b", "a"]`. -/
theorem home_based_destination_order_counterexample :
    ((detect_home_based_trips repoHomeRun none none 0 0 rankAB []).2.map fun t =>
      t.destinations) = [["a", "b"]] ∧
    (["a", "b"] : List String) ≠ ["b", "a"] := by
  constructor
  · with_unfolding_all decide
  · with_unfolding_all decide

/-! Dedup-key machinery shared by the invariant and idempotence claims. -/

/-- The dedup lookup succeeds exactly when some stored trip carries the
triple. -/
theorem hasKey_iff (store : List Trip) (s e : Nat) (a : String) :
    hasKey store s e a = true ↔ (s, e, a) ∈ store.map tripKey := by
  simp [hasKey, tripKey, List.any_eq_true, decide_eq_true_eq, List.mem_map,
    Prod.ext_iff]

/-- The key of the trip `_create_trip` builds is its argument triple. -/
theorem tripKey_mkTrip (sp : TripSpec) :
    tripKey (mkTrip sp) = (sp.start_time, sp.end_time, sp.algorithm) := rfl

/-- `_create_trip` preserves the at-most-one-row-per-key invariant. -/
theorem noDupKeys_create_trip {store : List Trip} (sp : TripSpec)
    (h : NoDupKeys store) : NoDupKeys (create_trip store sp) := by
  unfold create_trip
  split
  · exact h
  · rename_i hk
    unfold NoDupKeys at h ⊢
    rw [List.map_append, List.nodup_append]
    refine ⟨h, List.nodup_singleton _, ?_⟩
    intro k hkmem hkmem1
    simp only [List.map_cons, List.map_nil, List.mem_singleton] at hkmem1
    subst hkmem1
    rw [tripKey_mkTrip] at hkmem
    exact absurd ((hasKey_iff _ _ _ _).mpr hkmem) hk

/-- One memory-replay step preserves the invariant. -/
theorem noDupKeys_tmStep (acc : Nat × List Trip) (s : Seg)
    (h : NoDupKeys acc.2) : NoDupKeys (tmStep acc s).2 := by
  unfold tmStep
  rcases s.memory with _ | m
  · exact h
  · simp only
    split
    · exact h
    · rename_i hk
      unfold NoDupKeys at h ⊢
      rw [List.map_append, List.nodup_append]
      refine ⟨h, List.nodup_singleton _, ?_⟩
      intro k hkmem hkmem1
      simp only [List.map_cons, List.map_nil, List.mem_singleton] at hkmem1
      subst hkmem1
      exact absurd ((hasKey_iff _ _ _ _).mpr hkmem) hk

/-- A fold of invariant-preserving steps preserves the invariant. -/
theorem foldl_preserve {α β : Type} {P : α → Prop} {f : α → β → α}
    (hf : ∀ a b, P a → P (f a b)) :
    ∀ (l : List β) (a : α), P a → P (l.foldl f a) := by
  intro l
  induction l with
  | nil => intro a ha; exact ha
  | cons x xs ih => intro a ha; exact ih (f a x) (hf a x ha)

/-- `_create_overnight_trip` preserves the invariant. -/
theorem noDupKeys_create_overnight_trip (store : List Trip) (g : List Seg)
    (h : NoDupKeys store) : NoDupKeys (create_overnight_trip store g) := by
  unfold create_overnight_trip
  rcases g with _ | ⟨c, cs⟩
  · exact h
  · exact noDupKeys_create_trip _ h

/-- `_create_clustered_trip` preserves the invariant. -/
theorem noDupKeys_create_clustered_trip (rank : String → Nat)
    (store : List Trip) (g : List Seg) (h : NoDupKeys store) :
    NoDupKeys (create_clustered_trip rank store g) := by
  unfold create_clustered_trip
  rcases g with _ | ⟨c, cs⟩
  · exact h
  · exact noDupKeys_create_trip _ h

/-- Every single detector invocation preserves the invariant. -/
theorem noDupKeys_runCall (repo : Repo) (store : List Trip) (c : Call)
    (h : NoDupKeys store) : NoDupKeys (runCall repo store c).2 := by
  cases c with
  | tm sd ed =>
    simp only [runCall, detect_timeline_memory_trips]
    exact foldl_preserve (P := fun p => NoDupKeys p.2)
      (fun a b ha => noDupKeys_tmStep a b ha) _ (0, store) h
  | hb sd ed mk mh rank =>
    simp only [runCall, detect_home_based_trips]
    rcases hp : repo.profile with _ | profile
    · exact h
    · simp only
      split
      · exact h
      · exact foldl_preserve (fun a b ha => noDupKeys_create_trip b ha) _ store h
  | overnight sd ed mn =>
    simp only [runCall, detect_overnight_trips]
    rcases hp : repo.profile with _ | profile
    · exact h
    · simp only
      split
      · exact h
      · exact foldl_preserve (fun a b ha => noDupKeys_create_overnight_trip a b ha)
          _ store h
  | distance sd ed th gap rank =>
    simp only [runCall, detect_distance_based_trips]
    rcases hp : repo.profile with _ | profile
    · exact h
    · dsimp only
      rcases hl : profile.home_location with _ | l
      · exact h
      · exact foldl_preserve
          (fun a b ha => noDupKeys_create_clustered_trip rank a b ha) _ store h

/-- C1: `_create_trip` performs no write when the dedup lookup finds a trip
with the identical `(start_time, end_time, detection_algorithm)` triple, and
across every sequence of detector invocations the trip store keeps at most
one row per triple. -/
theorem trip_dedup_key_invariant :
    (∀ (store : List Trip) (sp : TripSpec),
        hasKey store sp.start_time sp.end_time sp.algorithm = true →
        create_trip store sp = store) ∧
    ∀ (repo : Repo) (calls : List Call) (store : List Trip),
      NoDupKeys store → NoDupKeys (runCalls repo store calls) := by
  constructor
  · intro store sp h
    unfold create_trip
    simp [h]
  · intro repo calls store h
    unfold runCalls
    exact foldl_preserve (fun st c hst => noDupKeys_runCall repo st c hst) calls store h

/-! Idempotence machinery: keys only grow under `_create_trip`, a fold of
materializations makes every folded key present, and a fold whose keys are
all present is a no-op. -/

/-- After `_create_trip` the argument key is present. -/
theorem hasKey_create_trip_self (store : List Trip) (sp : TripSpec) :
    hasKey (create_trip store sp) sp.start_time sp.end_time sp.algorithm = true := by
  unfold create_trip
  split
  · assumption
  · rw [hasKey_iff, List.map_append]
    simp [tripKey_mkTrip]

/-- Key presence is monotone under `_create_trip`. -/
theorem hasKey_mono_create_trip (store : List Trip) (sp : TripSpec)
    {s e : Nat} {a : String} (h : hasKey store s e a = true) :
    hasKey (create_trip store sp) s e a = true := by
  unfold create_trip
  split
  · exact h
  · rw [hasKey_iff] at h ⊢
    rw [List.map_append]
    exact List.mem_append_left _ h

/-- `_create_trip` performs no write when its key is present. -/
theorem create_trip_of_hasKey (store : List Trip) (sp : TripSpec)
    (h : hasKey store sp.start_time sp.end_time sp.algorithm = true) :
    create_trip store sp = store := by
  unfold create_trip
  simp [h]

/-- An update function that is, per element, either a no-write or a
`_create_trip` with a fixed spec (all four detectors' materializations have
this shape). -/
def CreateLike {β : Type} (u : List Trip → β → List Trip) : Prop :=
  ∀ b, (∀ st, u st b = st) ∨ ∃ sp, ∀ st, u st b = create_trip st sp

/-- Key presence is monotone under any create-like update. -/
theorem hasKey_mono_upd {β : Type} {u : List Trip → β → List Trip}
    (hu : CreateLike u) (b : β) (store : List Trip) {s e : Nat} {a : String}
    (h : hasKey store s e a = true) : hasKey (u store b) s e a = true := by
  rcases hu b with hid | ⟨sp, hcr⟩
  · rw [hid]
    exact h
  · rw [hcr]
    exact hasKey_mono_create_trip store sp h

/-- Key presence is monotone under a fold of create-like updates. -/
theorem hasKey_mono_foldl_upd {β : Type} {u : List Trip → β → List Trip}
    (hu : CreateLike u) (l : List β) (store : List Trip) {s e : Nat} {a : String}
    (h : hasKey store s e a = true) : hasKey (l.foldl u store) s e a = true :=
  foldl_preserve (P := fun st => hasKey st s e a = true)
    (fun st b hb => hasKey_mono_upd hu b st hb) l store h

/-- After a fold of create-like updates, every element that writes has its
key present. -/
theorem hasKey_foldl_upd {β : Type} {u : List Trip → β → List Trip}
    (hu : CreateLike u) (l : List β) :
    ∀ store, ∀ b ∈ l, ∀ sp, (∀ st, u st b = create_trip st sp) →
      hasKey (l.foldl u store) sp.start_time sp.end_time sp.algorithm = true := by
  induction l with
  | nil => intro store b hb; cases hb
  | cons x xs ih =>
    intro store b hb sp hsp
    rcases List.mem_cons.mp hb with rfl | hmem
    · rw [List.foldl_cons]
      exact hasKey_mono_foldl_upd hu xs (u store b)
        (by rw [hsp]; exact hasKey_create_trip_self store sp)
    · exact ih (u store x) b hmem sp hsp

/-- A fold of create-like updates whose keys are all present is a no-op. -/
theorem foldl_upd_of_hasKey {β : Type} {u : List Trip → β → List Trip}
    (hu : CreateLike u) (l : List β) :
    ∀ store, (∀ b ∈ l, ∀ sp, (∀ st, u st b = create_trip st sp) →
        hasKey store sp.start_time sp.end_time sp.algorithm = true) →
      l.foldl u store = store := by
  induction l with
  | nil => intro store _; rfl
  | cons x xs ih =>
    intro store h
    have hx : u store x = store := by
      rcases hu x with hid | ⟨sp, hcr⟩
      · exact hid store
      · rw [hcr]
        exact create_trip_of_hasKey store sp
          (h x (List.mem_cons_self x xs) sp hcr)
    rw [List.foldl_cons, hx]
    exact ih store fun b hb sp hsp => h b (List.mem_cons_of_mem x hb) sp hsp

/-- Folding the same create-like updates twice equals folding them once. -/
theorem foldl_upd_idem {β : Type} {u : List Trip → β → List Trip}
    (hu : CreateLike u) (l : List β) (store : List Trip) :
    l.foldl u (l.foldl u store) = l.foldl u store :=
  foldl_upd_of_hasKey hu l (l.foldl u store)
    fun b hb sp hsp => hasKey_foldl_upd hu l store b hb sp hsp

/-- `_create_trip` itself is create-like. -/
theorem createLike_create_trip : CreateLike create_trip :=
  fun sp => Or.inr ⟨sp, fun _ => rfl⟩

/-- `_create_overnight_trip` is create-like. -/
theorem createLike_create_overnight_trip : CreateLike create_overnight_trip := by
  intro g
  rcases g with _ | ⟨c, cs⟩
  · exact Or.inl fun st => rfl
  · exact Or.inr ⟨_, fun st => rfl⟩

/-- `_create_clustered_trip` is create-like. -/
theorem createLike_create_clustered_trip (rank : String → Nat) :
    CreateLike (create_clustered_trip rank) := by
  intro g
  rcases g with _ | ⟨c, cs⟩
  · exact Or.inl fun st => rfl
  · exact Or.inr ⟨_, fun st => rfl⟩

/-- Key presence is monotone under a memory-replay step. -/
theorem hasKey_mono_tmStep (acc : Nat × List Trip) (x : Seg) {s e : Nat}
    {a : String} (h : hasKey acc.2 s e a = true) :
    hasKey (tmStep acc x).2 s e a = true := by
  rcases hm : x.memory with _ | m
  · simpa [tmStep, hm] using h
  · simp only [tmStep, hm]
    split
    · exact h
    · rw [hasKey_iff] at h ⊢
      rw [List.map_append]
      exact List.mem_append_left _ h

/-- After the memory-replay fold, every replayed memory segment's triple is
present in the store. -/
theorem hasKey_tm_foldl (mems : List Seg) :
    ∀ acc, ∀ x ∈ mems, x.memory.isSome = true →
      hasKey (mems.foldl tmStep acc).2 x.start_time x.end_time
        "timeline_memory" = true := by
  induction mems with
  | nil => intro acc x hx; cases hx
  | cons y ys ih =>
    intro acc x hx hsome
    rcases List.mem_cons.mp hx with rfl | hmem
    · rw [List.foldl_cons]
      have hstep : hasKey (tmStep acc x).2 x.start_time x.end_time
          "timeline_memory" = true := by
        rcases hm : x.memory with _ | m
        · rw [hm] at hsome
          cases hsome
        · simp only [tmStep, hm]
          split
          · assumption
          · rw [hasKey_iff, List.map_append]
            simp [tripKey]
      exact foldl_preserve
        (P := fun p => hasKey p.2 x.start_time x.end_time "timeline_memory" = true)
        (fun p b hp => hasKey_mono_tmStep p b hp) ys _ hstep
    · exact ih (tmStep acc y) x hmem hsome

/-- A memory-replay fold all of whose keys are already present is a no-op
(both on the count and on the store). -/
theorem tm_foldl_of_hasKey (mems : List Seg) :
    ∀ acc : Nat × List Trip,
      (∀ x ∈ mems, x.memory = none ∨
        hasKey acc.2 x.start_time x.end_time "timeline_memory" = true) →
      mems.foldl tmStep acc = acc := by
  induction mems with
  | nil => intro acc _; rfl
  | cons y ys ih =>
    intro acc h
    have hy : tmStep acc y = acc := by
      rcases h y (List.mem_cons_self y ys) with hnone | hkey
      · simp [tmStep, hnone]
      · rcases hm : y.memory with _ | m
        · simp [tmStep, hm]
        · simp [tmStep, hm, hkey]
    rw [List.foldl_cons, hy]
    exact ih acc fun x hx => h x (List.mem_cons_of_mem y hx)

/-- A second memory-replay run over an unchanged repository creates nothing
and returns count 0. -/
theorem tm_second_run (repo : Repo) (sd ed : Option Nat) (store : List Trip) :
    detect_timeline_memory_trips repo sd ed
      (detect_timeline_memory_trips repo sd ed store).2 =
    (0, (detect_timeline_memory_trips repo sd ed store).2) := by
  unfold detect_timeline_memory_trips
  apply tm_foldl_of_hasKey
  intro x hx
  right
  have hsome : x.memory.isSome = true := by
    have hmem := (List.mem_filter.mp hx).2
    exact (Bool.and_eq_true_iff.mp hmem).1
  exact hasKey_tm_foldl _ (0, store) x hx hsome

/-- C2 amended: running `home_based`, `overnight` or `distance_based` a
second time over an unchanged repository returns the same result (same
count, unchanged store); `timeline_memory` also leaves the store unchanged
but counts newly created trips, so its second run returns count 0. -/
theorem detectors_second_run_stable :
    (∀ (repo : Repo) (sd ed : Option Nat) (mk mh : ℚ) (rank : String → Nat)
        (store : List Trip),
      detect_home_based_trips repo sd ed mk mh rank
        (detect_home_based_trips repo sd ed mk mh rank store).2 =
      detect_home_based_trips repo sd ed mk mh rank store) ∧
    (∀ (repo : Repo) (sd ed : Option Nat) (mn : Nat) (store : List Trip),
      detect_overnight_trips repo sd ed mn
        (detect_overnight_trips repo sd ed mn store).2 =
      detect_overnight_trips repo sd ed mn store) ∧
    (∀ (repo : Repo) (sd ed : Option Nat) (th gap : ℚ) (rank : String → Nat)
        (store : List Trip),
      detect_distance_based_trips repo sd ed th gap rank
        (detect_distance_based_trips repo sd ed th gap rank store).2 =
      detect_distance_based_trips repo sd ed th gap rank store) ∧
    (∀ (repo : Repo) (sd ed : Option Nat) (store : List Trip),
      detect_timeline_memory_trips repo sd ed
        (detect_timeline_memory_trips repo sd ed store).2 =
      (0, (detect_timeline_memory_trips repo sd ed store).2)) := by
  refine ⟨?_, ?_, ?_, ?_⟩
  · intro repo sd ed mk mh rank store
    unfold detect_home_based_trips
    rcases hp : repo.profile with _ | profile
    · rfl
    · dsimp only
      split
      · rfl
      · dsimp only
        rw [foldl_upd_idem createLike_create_trip]
  · intro repo sd ed mn store
    unfold detect_overnight_trips
    rcases hp : repo.profile with _ | profile
    · rfl
    · dsimp only
      split
      · rfl
      · dsimp only
        rw [foldl_upd_idem createLike_create_overnight_trip]
  · intro repo sd ed th gap rank store
    unfold detect_distance_based_trips
    rcases hp : repo.profile with _ | profile
    · rfl
    · dsimp only
      rcases hl : profile.home_location with _ | l
      · rfl
      · dsimp only
        rw [foldl_upd_idem (createLike_create_clustered_trip rank)]
  · exact tm_second_run

/-- Sorting by start time does not change membership. -/
theorem mem_sortByStart {s : Seg} {l : List Seg} : s ∈ sortByStart l ↔ s ∈ l :=
  (List.perm_insertionSort segLE l).mem_iff

/-- In place-id mode the candidate query is the place-id query shape. -/
theorem overnightCandidates_place_mode (repo : Repo) (sd ed : Option Nat)
    (profile : Profile) (hp : String) (h : profile.home_place_id = some hp) :
    overnightCandidates repo sd ed profile =
      overnightCandidatesPlace repo sd ed profile.home_place_id := by
  unfold overnightCandidates
  rw [h]
  rfl

/-- In coordinate mode the candidate query is the distance query shape. -/
theorem overnightCandidates_dist_mode (repo : Repo) (sd ed : Option Nat)
    (profile : Profile) (hl : Loc) (h1 : profile.home_place_id = none)
    (h2 : profile.home_location = some hl) :
    overnightCandidates repo sd ed profile =
      overnightCandidatesDist repo sd ed profile.home_location := by
  unfold overnightCandidates
  rw [h1, h2]
  rfl

/-- C3 amended: a visit segment is an overnight candidate iff its duration
is at least 6 hours, it is away from home under the resolved mode, and the
night window holds in the *conjunctive* sense: start hour at least 20 AND
end hour at most 8 (place-id mode and coordinate mode stated separately,
with no date-range filter). -/
theorem overnight_candidate_characterization :
    (∀ (repo : Repo) (profile : Profile) (hp : String) (s : Seg),
        profile.home_place_id = some hp →
        (s ∈ overnightCandidates repo none none profile ↔
          s ∈ repo.segments ∧
          6 * 3600 ≤ s.end_time - s.start_time ∧
          20 ≤ hourOf s.start_time ∧ hourOf s.end_time ≤ 8 ∧
          ∃ v, s.visit = some v ∧ ∃ p, v.place_id = some p ∧ p ≠ hp)) ∧
    (∀ (repo : Repo) (profile : Profile) (hl : Loc) (s : Seg),
        profile.home_place_id = none → profile.home_location = some hl →
        (s ∈ overnightCandidates repo none none profile ↔
          s ∈ repo.segments ∧
          6 * 3600 ≤ s.end_time - s.start_time ∧
          20 ≤ hourOf s.start_time ∧ hourOf s.end_time ≤ 8 ∧
          ∃ v, s.visit = some v ∧ ∃ l, v.location = some l ∧
            repo.dist hl l ≠ 0 ∧ 1 ≤ repo.dist hl l / 1000)) := by
  constructor
  · intro repo profile hp s h
    rw [overnightCandidates_place_mode repo none none profile hp h, h]
    unfold overnightCandidatesPlace
    rw [mem_sortByStart, List.mem_filter]
    rcases hv : s.visit with _ | v
    · simp [overnightBaseFilter, hv]
    · rcases hpid : v.place_id with _ | p
      · simp [overnightBaseFilter, hv, hpid]
      · simp only [overnightBaseFilter, rangeOk, hv, hpid, Option.isSome_some,
          Bool.and_true, Bool.true_and, Bool.and_eq_true, decide_eq_true_eq,
          Option.some.injEq]
        constructor
        · rintro ⟨hmem, hne, ⟨h20, h8⟩, hdur⟩
          exact ⟨hmem, hdur, h20, h8, v, rfl, p, hpid, hne⟩
        · rintro ⟨hmem, hdur, h20, h8, v2, hv2, p2, hp2, hne⟩
          cases hv2
          rw [hpid] at hp2
          cases hp2
          exact ⟨hmem, hne, ⟨h20, h8⟩, hdur⟩
  · intro repo profile hl s h1 h2
    rw [overnightCandidates_dist_mode repo none none profile hl h1 h2, h2]
    unfold overnightCandidatesDist
    rw [List.mem_filter, mem_sortByStart, List.mem_filter]
    rcases hv : s.visit with _ | v
    · simp [overnightBaseFilter, hv]
    · rcases hloc : v.location with _ | l
      · simp [overnightBaseFilter, hv, hloc]
      · simp only [overnightBaseFilter, rangeOk, hv, hloc, Option.isSome_some,
          Bool.and_true, Bool.true_and, Bool.and_eq_true, decide_eq_true_eq,
          Option.some.injEq]
        constructor
        · rintro ⟨⟨hmem, ⟨h20, h8⟩, hdur⟩, hne, hge⟩
          exact ⟨hmem, hdur, h20, h8, v, rfl, l, hloc, hne, hge⟩
        · rintro ⟨hmem, hdur, h20, h8, v2, hv2, l2, hl2, hne, hge⟩
          cases hv2
          rw [hloc] at hl2
          cases hl2
          exact ⟨⟨hmem, ⟨h20, h8⟩, hdur⟩, hne, hge⟩

/-- C3 witness: the characterization applied to the concrete overnight
visit `segOvernightA` in place-id mode. -/
theorem overnight_candidate_characterization_witness :
    segOvernightA ∈ overnightCandidates repoDupDest none none profH :=
  (overnight_candidate_characterization.1 repoDupDest profH "H" segOvernightA
      rfl).mpr
    ⟨by decide, by decide, by decide, by decide,
     ⟨{ place_id := some "P", location := none }, rfl, "P", rfl, by decide⟩⟩

/-- C5 amended: in coordinate mode a visit segment carrying a location is
classified as a home visit iff the oracle distance is *non-zero* and below
1 km (`is_home = distance and (distance / 1000) < 1.0`: a zero distance is
Python-falsy, so the point exactly at the home coordinate is not home). -/
theorem coord_home_classification (dist : Loc → Loc → ℚ) (hl : Loc)
    (hp : Option String) (s : Seg) (v : Visit) (l : Loc)
    (hv : s.visit = some v) (hloc : v.location = some l) :
    (is_home_visit dist true (some hl) hp s = true ↔
      dist hl l ≠ 0 ∧ dist hl l / 1000 < 1) := by
  simp [is_home_visit, hv, hloc, Bool.and_eq_true, decide_eq_true_eq]

/-- C5 witness: the classification applied at a visit 500 m from home. -/
theorem coord_home_classification_witness :
    is_home_visit (fun _ _ => (500 : ℚ)) true (some (1, 2)) none segVisitLoc = true :=
  (coord_home_classification (fun _ _ => (500 : ℚ)) (1, 2) none segVisitLoc
      { place_id := none, location := some (1, 2) } (1, 2) rfl rfl).mpr
    ⟨by norm_num, by norm_num⟩

/-- A non-home segment only grows the accumulator: the emitted spec list is
untouched. -/
theorem hbStep_nonhome_specs (dist : Loc → Loc → ℚ) (use_db : Bool)
    (hl : Option Loc) (hp : Option String) (mk mh : ℚ) (rank : String → Nat)
    (st : HBState) (s : Seg)
    (h : is_home_visit dist use_db hl hp s = false) :
    (hbStep dist use_db hl hp mk mh rank st s).specs = st.specs := by
  simp [hbStep, h]

/-- A run of non-home segments emits nothing. -/
theorem hbFold_nonhome_specs (dist : Loc → Loc → ℚ) (use_db : Bool)
    (hl : Option Loc) (hp : Option String) (mk mh : ℚ) (rank : String → Nat)
    (tail : List Seg)
    (h : ∀ s ∈ tail, is_home_visit dist use_db hl hp s = false) :
    ∀ st : HBState,
      (tail.foldl (hbStep dist use_db hl hp mk mh rank) st).specs = st.specs := by
  induction tail with
  | nil => intro st; rfl
  | cons x xs ih =>
    intro st
    rw [List.foldl_cons, ih fun s hs => h s (List.mem_cons_of_mem x hs),
      hbStep_nonhome_specs dist use_db hl hp mk mh rank st x
        (h x (List.mem_cons_self x xs))]

/-- Appending a trailing run of non-home segments to the stream leaves the
emitted trips unchanged. -/
theorem hbProcess_append_nonhome (dist : Loc → Loc → ℚ) (use_db : Bool)
    (hl : Option Loc) (hp : Option String) (mk mh : ℚ) (rank : String → Nat)
    (segs tail : List Seg)
    (h : ∀ s ∈ tail, is_home_visit dist use_db hl hp s = false) :
    (hbProcess dist use_db hl hp mk mh rank (segs ++ tail)).specs =
      (hbProcess dist use_db hl hp mk mh rank segs).specs := by
  unfold hbProcess
  rw [List.foldl_append]
  exact hbFold_nonhome_specs dist use_db hl hp mk mh rank tail h _

/-- Invariant of the home-based pass: every emitted spec is bracketed by a
non-home first pending segment and a closing home segment of the universe,
and a non-empty pending run starts with a non-home universe segment. -/
theorem hb_fold_bounds (dist : Loc → Loc → ℚ) (use_db : Bool)
    (hl : Option Loc) (hp : Option String) (mk mh : ℚ) (rank : String → Nat)
    (u : List Seg) :
    ∀ (segs : List Seg) (st : HBState),
      (∀ s ∈ segs, s ∈ u) →
      (∀ sp ∈ st.specs, ∃ sf ∈ u, ∃ sc ∈ u,
        is_home_visit dist use_db hl hp sf = false ∧
        is_home_visit dist use_db hl hp sc = true ∧
        sp.start_time = sf.start_time ∧ sp.end_time = sc.start_time) →
      (∀ p ∈ st.pending.head?, p ∈ u ∧
        is_home_visit dist use_db hl hp p = false) →
      ∀ sp ∈ (segs.foldl (hbStep dist use_db hl hp mk mh rank) st).specs,
        ∃ sf ∈ u, ∃ sc ∈ u,
          is_home_visit dist use_db hl hp sf = false ∧
          is_home_visit dist use_db hl hp sc = true ∧
          sp.start_time = sf.start_time ∧ sp.end_time = sc.start_time := by
  intro segs
  induction segs with
  | nil => intro st _ hspecs _ sp hsp; exact hspecs sp hsp
  | cons x xs ih =>
    intro st hu hspecs hpend
    rw [List.foldl_cons]
    have hxu : x ∈ u := hu x (List.mem_cons_self x xs)
    have hxs : ∀ s ∈ xs, s ∈ u := fun s hs => hu s (List.mem_cons_of_mem x hs)
    rcases hhome : is_home_visit dist use_db hl hp x with _ | _
    · -- non-home: pending grows, specs unchanged
      refine ih _ hxs ?_ ?_
      · intro sp hsp
        rw [hbStep_nonhome_specs dist use_db hl hp mk mh rank st x hhome] at hsp
        exact hspecs sp hsp
      · intro p hpd
        simp only [hbStep, hhome, Bool.false_eq_true, if_false] at hpd
        rcases hpd' : st.pending with _ | ⟨q, qs⟩
        · rw [hpd'] at hpd
          simp only [List.nil_append, List.head?_cons, Option.mem_def,
            Option.some.injEq] at hpd
          subst hpd
          exact ⟨hxu, hhome⟩
        · rw [hpd'] at hpd
          simp only [List.cons_append, List.head?_cons, Option.mem_def,
            Option.some.injEq] at hpd
          subst hpd
          exact hpend q (by rw [hpd']; rfl)
    · -- home: maybe close the pending run
      refine ih _ hxs ?_ ?_
      · intro sp hsp
        rcases hpd : st.pending with _ | ⟨q, qs⟩
        · simp only [hbStep, hhome, if_true, hpd] at hsp
          exact hspecs sp hsp
        · simp only [hbStep, hhome, if_true, hpd] at hsp
          split at hsp
          · rcases List.mem_append.mp hsp with hold | hnew
            · exact hspecs sp hold
            · rcases List.mem_singleton.mp hnew with rfl
              have hq := hpend q (by rw [hpd]; rfl)
              exact ⟨q, hq.1, x, hxu, hq.2, hhome, rfl, rfl⟩
          · exact hspecs sp hsp
      · intro p hpd
        rcases hpd' : st.pending with _ | ⟨q, qs⟩
        · simp [hbStep, hhome, hpd'] at hpd
        · simp [hbStep, hhome, hpd'] at hpd

/-- C6: a trailing run of non-home segments emits nothing (appending it to
any stream leaves the emitted trips unchanged; a stream with no
home-classified segment at all yields count 0 and an unchanged store), and
every materialized home-based trip is bracketed by an observed home visit:
bounds = [first pending non-home segment's start, closing home segment's
start). -/
theorem home_based_trailing_run_excluded :
    (∀ (dist : Loc → Loc → ℚ) (use_db : Bool) (hl : Option Loc)
        (hp : Option String) (mk mh : ℚ) (rank : String → Nat)
        (segs tail : List Seg),
        (∀ s ∈ tail, is_home_visit dist use_db hl hp s = false) →
        (hbProcess dist use_db hl hp mk mh rank (segs ++ tail)).specs =
          (hbProcess dist use_db hl hp mk mh rank segs).specs) ∧
    (∀ (dist : Loc → Loc → ℚ) (use_db : Bool) (hl : Option Loc)
        (hp : Option String) (mk mh : ℚ) (rank : String → Nat)
        (segs : List Seg) (sp : TripSpec),
        sp ∈ (hbProcess dist use_db hl hp mk mh rank segs).specs →
        ∃ sf ∈ segs, ∃ sc ∈ segs,
          is_home_visit dist use_db hl hp sf = false ∧
          is_home_visit dist use_db hl hp sc = true ∧
          sp.start_time = sf.start_time ∧ sp.end_time = sc.start_time) ∧
    (∀ (repo : Repo) (sd ed : Option Nat) (mk mh : ℚ) (rank : String → Nat)
        (store : List Trip) (profile : Profile),
        repo.profile = some profile →
        (∀ s ∈ repo.segments, is_home_visit repo.dist
            (profile.home_place_id.isNone && profile.home_location.isSome)
            profile.home_location profile.home_place_id s = false) →
        detect_home_based_trips repo sd ed mk mh rank store = (0, store)) := by
  refine ⟨hbProcess_append_nonhome, ?_, ?_⟩
  · intro dist use_db hl hp mk mh rank segs sp hsp
    refine hb_fold_bounds dist use_db hl hp mk mh rank segs segs ⟨[], 0, [], []⟩
      (fun s hs => hs) ?_ ?_ sp hsp
    · intro sp2 hsp2
      exact absurd hsp2 (List.not_mem_nil sp2)
    · intro p hpd
      simp at hpd
  · intro repo sd ed mk mh rank store profile hprof hall
    unfold detect_home_based_trips
    rw [hprof]
    dsimp only
    split
    · rfl
    · have hspecs : (hbProcess repo.dist
          (profile.home_place_id.isNone && profile.home_location.isSome)
          profile.home_location profile.home_place_id mk mh rank
          (sortByStart (repo.segments.filter (rangeOk sd ed)))).specs = [] := by
        have h0 := hbProcess_append_nonhome repo.dist
          (profile.home_place_id.isNone && profile.home_location.isSome)
          profile.home_location profile.home_place_id mk mh rank []
          (sortByStart (repo.segments.filter (rangeOk sd ed)))
          (fun s hs => hall s (List.mem_filter.mp (mem_sortByStart.mp hs)).1)
        simpa using h0
      rw [hspecs]
      rfl

/-- C6 witness: the detector-level exclusion applied to the one-segment
away-only repository `repoNight`. -/
theorem home_based_trailing_run_excluded_witness :
    detect_home_based_trips repoNight none none 0 0 rankAB [] = (0, []) :=
  home_based_trailing_run_excluded.2.2 repoNight none none 0 0 rankAB [] profH
    rfl
    (by
      intro s hs
      rcases List.mem_singleton.mp hs with rfl
      decide)

/-- `set.add` preserves distinctness of the membership list. -/
theorem pySetAdd_nodup (s : List String) (x : String) (h : s.Nodup) :
    (pySetAdd s x).Nodup := by
  unfold pySetAdd
  split
  · exact h
  · rename_i hx
    rw [List.nodup_append]
    exact ⟨h, List.nodup_singleton x, by simpa using hx⟩

/-- Membership in the accumulated set. -/
theorem mem_pySetAdd (s : List String) (x p : String) :
    p ∈ pySetAdd s x ↔ p ∈ s ∨ p = x := by
  unfold pySetAdd
  split
  · rename_i hx
    constructor
    · exact Or.inl
    · rintro (h | rfl)
      · exact h
      · exact hx
  · simp [List.mem_append]

/-- A fold of `set.add` steps preserves distinctness. -/
theorem foldl_pySetAdd_nodup (xs : List String) :
    ∀ acc : List String, acc.Nodup → (xs.foldl pySetAdd acc).Nodup := by
  induction xs with
  | nil => intro acc h; exact h
  | cons y ys ih => intro acc h; exact ih (pySetAdd acc y) (pySetAdd_nodup acc y h)

/-- Membership after a fold of `set.add` steps. -/
theorem mem_foldl_pySetAdd (xs : List String) :
    ∀ (acc : List String) (p : String),
      p ∈ xs.foldl pySetAdd acc ↔ p ∈ acc ∨ p ∈ xs := by
  induction xs with
  | nil => intro acc p; simp
  | cons y ys ih =>
    intro acc p
    rw [List.foldl_cons, ih, mem_pySetAdd]
    simp [List.mem_cons]
    tauto

/-- Enumerating a set in the runtime rank order is a permutation of its
membership list. -/
theorem pySetList_perm (rank : String → Nat) (s : List String) :
    (pySetList rank s).Perm s :=
  List.perm_insertionSort _ s

/-- Every trip appended by a fold of `_create_trip` calls is the
materialization of one of the folded specs. -/
theorem mem_foldl_create_trip (sps : List TripSpec) :
    ∀ (store : List Trip) (t : Trip), t ∈ sps.foldl create_trip store →
      t ∈ store ∨ ∃ sp ∈ sps, t = mkTrip sp := by
  induction sps with
  | nil => intro store t ht; exact Or.inl ht
  | cons x xs ih =>
    intro store t ht
    rcases ih (create_trip store x) t ht with hin | ⟨sp, hsp, rfl⟩
    · unfold create_trip at hin
      split at hin
      · exact Or.inl hin
      · rcases List.mem_append.mp hin with hl | hr
        · exact Or.inl hl
        · exact Or.inr ⟨x, List.mem_cons_self x xs, (List.mem_singleton.mp hr)⟩
    · exact Or.inr ⟨sp, List.mem_cons_of_mem x hsp, rfl⟩

/-- Invariant of the home-based pass: the accumulated destination set stays
duplicate-free and every emitted spec's destination list is duplicate-free. -/
theorem hb_fold_dests_nodup (dist : Loc → Loc → ℚ) (use_db : Bool)
    (hl : Option Loc) (hp : Option String) (mk mh : ℚ) (rank : String → Nat) :
    ∀ (segs : List Seg) (st : HBState), st.dests.Nodup →
      (∀ sp ∈ st.specs, sp.destinations.Nodup) →
      ∀ sp ∈ (segs.foldl (hbStep dist use_db hl hp mk mh rank) st).specs,
        sp.destinations.Nodup := by
  intro segs
  induction segs with
  | nil => intro st _ hspecs sp hsp; exact hspecs sp hsp
  | cons x xs ih =>
    intro st hdn hspecs
    rw [List.foldl_cons]
    rcases hhome : is_home_visit dist use_db hl hp x with _ | _
    · refine ih _ ?_ ?_
      · simp only [hbStep, hhome, Bool.false_eq_true, if_false]
        rcases hv : x.visit with _ | v
        · simp only [hv]
          exact hdn
        · simp only [hv]
          rcases hpid : v.place_id with _ | p
          · simp only [hpid]
            exact hdn
          · simp only [hpid]
            split
            · exact pySetAdd_nodup st.dests p hdn
            · exact hdn
      · intro sp hsp
        rw [hbStep_nonhome_specs dist use_db hl hp mk mh rank st x hhome] at hsp
        exact hspecs sp hsp
    · rcases hpd : st.pending with _ | ⟨q, qs⟩
      · refine ih _ ?_ ?_
        · simp [hbStep, hhome, hpd]
          exact hdn
        · intro sp hsp
          simp only [hbStep, hhome, if_true, hpd] at hsp
          exact hspecs sp hsp
      · refine ih _ ?_ ?_
        · simp [hbStep, hhome, hpd]
        · intro sp hsp
          simp only [hbStep, hhome, if_true, hpd] at hsp
          split at hsp
          · rcases List.mem_append.mp hsp with hold | hnew
            · exact hspecs sp hold
            · rcases List.mem_singleton.mp hnew with rfl
              exact ((pySetList_perm rank st.dests).nodup_iff).mpr hdn
          · exact hspecs sp hsp

/-- C8 amended: the home-based destination list is the run's visited place
identifiers *deduplicated through a Python set*: its content is exactly the
set of accumulated identifiers and it contains no duplicates, but its order
is the runtime's set-iteration order (the rank), not first-encounter order —
like distance-based, home-based does not guarantee destination order. -/
theorem home_based_destinations_dedup :
    (∀ xs : List String, (xs.foldl pySetAdd []).Nodup ∧
      ∀ p, p ∈ xs.foldl pySetAdd [] ↔ p ∈ xs) ∧
    (∀ (rank : String → Nat) (s : List String), (pySetList rank s).Perm s) ∧
    (∀ (repo : Repo) (sd ed : Option Nat) (mk mh : ℚ) (rank : String → Nat)
        (store : List Trip) (t : Trip),
        t ∈ (detect_home_based_trips repo sd ed mk mh rank store).2 →
        t ∈ store ∨ t.destinations.Nodup) := by
  refine ⟨?_, pySetList_perm, ?_⟩
  · intro xs
    refine ⟨foldl_pySetAdd_nodup xs [] List.nodup_nil, ?_⟩
    intro p
    rw [mem_foldl_pySetAdd]
    simp
  · intro repo sd ed mk mh rank store t ht
    unfold detect_home_based_trips at ht
    rcases hprof : repo.profile with _ | profile
    · rw [hprof] at ht
      exact Or.inl ht
    · rw [hprof] at ht
      dsimp only at ht
      split at ht
      · exact Or.inl ht
      · dsimp only at ht
        rcases mem_foldl_create_trip _ store t ht with hin | ⟨sp, hsp, rfl⟩
        · exact Or.inl hin
        · right
          have hnd := hb_fold_dests_nodup repo.dist
            (profile.home_place_id.isNone && profile.home_location.isSome)
            profile.home_location profile.home_place_id mk mh rank
            (sortByStart (repo.segments.filter (rangeOk sd ed)))
            ⟨[], 0, [], []⟩ List.nodup_nil
            (fun sp2 hsp2 => absurd hsp2 (List.not_mem_nil sp2)) sp hsp
          exact hnd

/-- C8 witness: the deduplication applied to the trip materialized from
`repoHomeRun` (which visits `"b"` then `"a"`). -/
theorem home_based_destinations_dedup_witness :
    tripHomeRun ∈ ([] : List Trip) ∨ tripHomeRun.destinations.Nodup :=
  home_based_destinations_dedup.2.2 repoHomeRun none none 0 0 rankAB []
    tripHomeRun (by with_unfolding_all decide)

/-- The chronological retrieval is sorted by start time. -/
theorem sorted_sortByStart (l : List Seg) : List.Sorted segLE (sortByStart l) :=
  List.sorted_insertionSort segLE l

/-- In a sorted stream every emitted home-based spec has start ≤ end: the
closing home segment is scanned after the first pending segment. -/
theorem hb_fold_le (dist : Loc → Loc → ℚ) (use_db : Bool) (hl : Option Loc)
    (hp : Option String) (mk mh : ℚ) (rank : String → Nat) :
    ∀ (segs : List Seg) (st : HBState),
      List.Sorted segLE (st.pending ++ segs) →
      (∀ sp ∈ st.specs, sp.start_time ≤ sp.end_time) →
      ∀ sp ∈ (segs.foldl (hbStep dist use_db hl hp mk mh rank) st).specs,
        sp.start_time ≤ sp.end_time := by
  intro segs
  induction segs with
  | nil => intro st _ hspecs sp hsp; exact hspecs sp hsp
  | cons x xs ih =>
    intro st hsort hspecs
    rw [List.foldl_cons]
    rcases hhome : is_home_visit dist use_db hl hp x with _ | _
    · refine ih _ ?_ ?_
      · simp only [hbStep, hhome, Bool.false_eq_true, if_false]
        rw [List.append_assoc, List.singleton_append]
        exact hsort
      · intro sp hsp
        rw [hbStep_nonhome_specs dist use_db hl hp mk mh rank st x hhome] at hsp
        exact hspecs sp hsp
    · have hxs_sorted : List.Sorted segLE xs := by
        refine hsort.sublist ?_
        refine List.Sublist.trans (List.sublist_cons_self x xs) ?_
        exact List.sublist_append_right st.pending (x :: xs)
      rcases hpd : st.pending with _ | ⟨q, qs⟩
      · refine ih _ ?_ ?_
        · simp only [hbStep, hhome, if_true, hpd]
          rw [List.nil_append]
          exact hxs_sorted
        · intro sp hsp
          simp only [hbStep, hhome, if_true, hpd] at hsp
          exact hspecs sp hsp
      · refine ih _ ?_ ?_
        · simp only [hbStep, hhome, if_true, hpd]
          rw [List.nil_append]
          exact hxs_sorted
        · intro sp hsp
          simp only [hbStep, hhome, if_true, hpd] at hsp
          split at hsp
          · rcases List.mem_append.mp hsp with hold | hnew
            · exact hspecs sp hold
            · rcases List.mem_singleton.mp hnew with rfl
              rw [hpd, List.cons_append] at hsort
              exact (List.pairwise_cons.mp hsort).1 x
                (by rw [List.mem_append]; right; exact List.mem_cons_self x xs)
          · exact hspecs sp hsp

/-- Every group emitted by the overnight grouping walk over a sorted,
well-formed candidate list is itself sorted and well-formed. -/
theorem onGroups_sorted_wf (mn : Nat) :
    ∀ (rest cur : List Seg), List.Sorted segLE (cur ++ rest) →
      (∀ s ∈ cur ++ rest, s.start_time ≤ s.end_time) →
      ∀ g ∈ onGroups mn cur rest,
        List.Sorted segLE g ∧ ∀ s ∈ g, s.start_time ≤ s.end_time := by
  intro rest
  induction rest with
  | nil =>
    intro cur hsort hwf g hg
    rw [onGroups] at hg
    split at hg
    · rcases List.mem_singleton.mp hg with rfl
      rw [List.append_nil] at hsort hwf
      exact ⟨hsort, hwf⟩
    · cases hg
  | cons s rest ih =>
    intro cur hsort hwf g hg
    rcases hcur : cur with _ | ⟨c, cs⟩
    · subst hcur
      simp only [onGroups] at hg
      rw [List.nil_append] at hsort hwf
      refine ih [s] ?_ ?_ g hg
      · rw [List.singleton_append]
        exact hsort
      · rw [List.singleton_append]
        exact hwf
    · subst hcur
      simp only [onGroups] at hg
      have hsorted_cur : List.Sorted segLE (c :: cs) :=
        hsort.sublist (List.sublist_append_left (c :: cs) (s :: rest))
      have hwf_cur : ∀ t ∈ c :: cs, t.start_time ≤ t.end_time :=
        fun t ht => hwf t (List.mem_append_left _ ht)
      have hsorted_srest : List.Sorted segLE (s :: rest) :=
        hsort.sublist (List.sublist_append_right (c :: cs) (s :: rest))
      have hwf_srest : ∀ t ∈ s :: rest, t.start_time ≤ t.end_time :=
        fun t ht => hwf t (List.mem_append_right _ ht)
      split at hg
      · rcases List.mem_append.mp hg with hemit | hrec
        · split at hemit
          · rcases List.mem_singleton.mp hemit with rfl
            exact ⟨hsorted_cur, hwf_cur⟩
          · cases hemit
        · refine ih [s] ?_ ?_ g hrec
          · rw [List.singleton_append]
            exact hsorted_srest
          · rw [List.singleton_append]
            exact hwf_srest
      · refine ih (c :: (cs ++ [s])) ?_ ?_ g hg
        · simp only [List.cons_append, List.append_assoc,
            List.singleton_append] at hsort ⊢
          exact hsort
        · intro t ht
          simp only [List.cons_append, List.append_assoc,
            List.singleton_append] at ht
          refine hwf t ?_
          simpa [List.cons_append] using ht

/-- Every cluster emitted by the distance-based clustering walk over a
sorted, well-formed far-segment list is itself sorted and well-formed. -/
theorem dbClusters_sorted_wf (gap : ℚ) :
    ∀ (rest cur : List Seg), List.Sorted segLE (cur ++ rest) →
      (∀ s ∈ cur ++ rest, s.start_time ≤ s.end_time) →
      ∀ g ∈ dbClusters gap cur rest,
        List.Sorted segLE g ∧ ∀ s ∈ g, s.start_time ≤ s.end_time := by
  intro rest
  induction rest with
  | nil =>
    intro cur hsort hwf g hg
    rw [dbClusters] at hg
    split at hg
    · rcases List.mem_singleton.mp hg with rfl
      rw [List.append_nil] at hsort hwf
      exact ⟨hsort, hwf⟩
    · cases hg
  | cons s rest ih =>
    intro cur hsort hwf g hg
    rcases hcur : cur with _ | ⟨c, cs⟩
    · subst hcur
      simp only [dbClusters] at hg
      rw [List.nil_append] at hsort hwf
      refine ih [s] ?_ ?_ g hg
      · rw [List.singleton_append]
        exact hsort
      · rw [List.singleton_append]
        exact hwf
    · subst hcur
      simp only [dbClusters] at hg
      have hsorted_cur : List.Sorted segLE (c :: cs) :=
        hsort.sublist (List.sublist_append_left (c :: cs) (s :: rest))
      have hwf_cur : ∀ t ∈ c :: cs, t.start_time ≤ t.end_time :=
        fun t ht => hwf t (List.mem_append_left _ ht)
      have hsorted_srest : List.Sorted segLE (s :: rest) :=
        hsort.sublist (List.sublist_append_right (c :: cs) (s :: rest))
      have hwf_srest : ∀ t ∈ s :: rest, t.start_time ≤ t.end_time :=
        fun t ht => hwf t (List.mem_append_right _ ht)
      split at hg
      · refine ih (c :: (cs ++ [s])) ?_ ?_ g hg
        · simp only [List.cons_append, List.append_assoc,
            List.singleton_append] at hsort ⊢
          exact hsort
        · intro t ht
          simp only [List.cons_append, List.append_assoc,
            List.singleton_append] at ht
          refine hwf t ?_
          simpa [List.cons_append] using ht
      · rcases List.mem_append.mp hg with hemit | hrec
        · split at hemit
          · rcases List.mem_singleton.mp hemit with rfl
            exact ⟨hsorted_cur, hwf_cur⟩
          · cases hemit
        · refine ih [s] ?_ ?_ g hrec
          · rw [List.singleton_append]
            exact hsorted_srest
          · rw [List.singleton_append]
            exact hwf_srest

/-- In a sorted well-formed group the first start precedes the last end. -/
theorem sorted_head_le_getLast_end (c : Seg) (cs : List Seg)
    (hs : List.Sorted segLE (c :: cs))
    (hwf : ∀ s ∈ c :: cs, s.start_time ≤ s.end_time) :
    c.start_time ≤ ((c :: cs).getLast (List.cons_ne_nil c cs)).end_time := by
  have hmem := List.getLast_mem (List.cons_ne_nil c cs)
  rcases List.mem_cons.mp hmem with heq | hmemcs
  · rw [heq]
    exact hwf c (List.mem_cons_self c cs)
  · have h1 : segLE c ((c :: cs).getLast (List.cons_ne_nil c cs)) :=
      (List.pairwise_cons.mp hs).1 _ hmemcs
    exact le_trans h1 (hwf _ hmem)

/-- Every trip appended by the memory-replay fold copies its bounds from a
replayed memory segment. -/
theorem mem_tm_foldl_bounds (mems : List Seg) :
    ∀ (acc : Nat × List Trip) (t : Trip), t ∈ (mems.foldl tmStep acc).2 →
      t ∈ acc.2 ∨ ∃ s ∈ mems,
        t.start_time = s.start_time ∧ t.end_time = s.end_time := by
  induction mems with
  | nil => intro acc t ht; exact Or.inl ht
  | cons x xs ih =>
    intro acc t ht
    rw [List.foldl_cons] at ht
    rcases ih (tmStep acc x) t ht with hin | ⟨s, hs, h1, h2⟩
    · rcases hm : x.memory with _ | m
      · simp only [tmStep, hm] at hin
        exact Or.inl hin
      · simp only [tmStep, hm] at hin
        split at hin
        · exact Or.inl hin
        · rcases List.mem_append.mp hin with h | h
          · exact Or.inl h
          · rcases List.mem_singleton.mp h with rfl
            exact Or.inr ⟨x, List.mem_cons_self x xs, rfl, rfl⟩
    · exact Or.inr ⟨s, List.mem_cons_of_mem x hs, h1, h2⟩

/-- Every trip appended by the overnight materialization fold takes its
bounds from a non-empty group: first start, last end. -/
theorem mem_foldl_create_overnight_bounds (groups : List (List Seg)) :
    ∀ (store : List Trip) (t : Trip),
      t ∈ groups.foldl create_overnight_trip store →
      t ∈ store ∨ ∃ c cs, (c :: cs) ∈ groups ∧ t.start_time = c.start_time ∧
        t.end_time = ((c :: cs).getLast (List.cons_ne_nil c cs)).end_time := by
  induction groups with
  | nil => intro store t ht; exact Or.inl ht
  | cons g gs ih =>
    intro store t ht
    rw [List.foldl_cons] at ht
    rcases ih (create_overnight_trip store g) t ht with hin | ⟨c, cs, hmem, h1, h2⟩
    · rcases hg : g with _ | ⟨c, cs⟩
      · subst hg
        exact Or.inl hin
      · subst hg
        simp only [create_overnight_trip] at hin
        unfold create_trip at hin
        split at hin
        · exact Or.inl hin
        · rcases List.mem_append.mp hin with h | h
          · exact Or.inl h
          · rcases List.mem_singleton.mp h with rfl
            exact Or.inr ⟨c, cs, List.mem_cons_self _ _, rfl, rfl⟩
    · exact Or.inr ⟨c, cs, List.mem_cons_of_mem g hmem, h1, h2⟩

/-- Every trip appended by the clustered materialization fold takes its
bounds from a non-empty cluster: first start, last end. -/
theorem mem_foldl_create_clustered_bounds (rank : String → Nat)
    (groups : List (List Seg)) :
    ∀ (store : List Trip) (t : Trip),
      t ∈ groups.foldl (create_clustered_trip rank) store →
      t ∈ store ∨ ∃ c cs, (c :: cs) ∈ groups ∧ t.start_time = c.start_time ∧
        t.end_time = ((c :: cs).getLast (List.cons_ne_nil c cs)).end_time := by
  induction groups with
  | nil => intro store t ht; exact Or.inl ht
  | cons g gs ih =>
    intro store t ht
    rw [List.foldl_cons] at ht
    rcases ih (create_clustered_trip rank store g) t ht with
      hin | ⟨c, cs, hmem, h1, h2⟩
    · rcases hg : g with _ | ⟨c, cs⟩
      · subst hg
        exact Or.inl hin
      · subst hg
        simp only [create_clustered_trip] at hin
        unfold create_trip at hin
        split at hin
        · exact Or.inl hin
        · rcases List.mem_append.mp hin with h | h
          · exact Or.inl h
          · rcases List.mem_singleton.mp h with rfl
            exact Or.inr ⟨c, cs, List.mem_cons_self _ _, rfl, rfl⟩
    · exact Or.inr ⟨c, cs, List.mem_cons_of_mem g hmem, h1, h2⟩

/-- The overnight candidate list is sorted by start time. -/
theorem sorted_overnightCandidates (repo : Repo) (sd ed : Option Nat)
    (profile : Profile) :
    List.Sorted segLE (overnightCandidates repo sd ed profile) := by
  unfold overnightCandidates
  dsimp only
  split
  · unfold overnightCandidatesDist
    exact List.Pairwise.filter _ (sorted_sortByStart _)
  · unfold overnightCandidatesPlace
    exact sorted_sortByStart _

/-- Overnight candidates are stored segments. -/
theorem mem_overnightCandidates_segments {repo : Repo} {sd ed : Option Nat}
    {profile : Profile} {s : Seg}
    (h : s ∈ overnightCandidates repo sd ed profile) : s ∈ repo.segments := by
  unfold overnightCandidates at h
  dsimp only at h
  split at h
  · unfold overnightCandidatesDist at h
    exact (List.mem_filter.mp (mem_sortByStart.mp (List.mem_filter.mp h).1)).1
  · unfold overnightCandidatesPlace at h
    exact (List.mem_filter.mp (mem_sortByStart.mp h)).1

/-- C9 amended: over a well-formed repository (every segment has
`end_time ≥ start_time`) every trip created by any of the four detectors
satisfies `end_time ≥ start_time` — but not strictly: `end > start` is not
enforced, as the zero-length counterexample shows. -/
theorem trips_end_ge_start (repo : Repo) (c : Call) (store : List Trip)
    (t : Trip) (hwf : WFRepo repo) (ht : t ∈ (runCall repo store c).2) :
    t ∈ store ∨ t.start_time ≤ t.end_time := by
  cases c with
  | tm sd ed =>
    simp only [runCall, detect_timeline_memory_trips] at ht
    rcases mem_tm_foldl_bounds _ (0, store) t ht with hin | ⟨s, hs, h1, h2⟩
    · exact Or.inl hin
    · right
      rw [h1, h2]
      exact hwf s (List.mem_filter.mp hs).1
  | hb sd ed mk mh rank =>
    simp only [runCall, detect_home_based_trips] at ht
    rcases hprof : repo.profile with _ | profile
    · rw [hprof] at ht
      exact Or.inl ht
    · rw [hprof] at ht
      dsimp only at ht
      split at ht
      · exact Or.inl ht
      · dsimp only at ht
        rcases mem_foldl_create_trip _ store t ht with hin | ⟨sp, hsp, rfl⟩
        · exact Or.inl hin
        · right
          refine hb_fold_le repo.dist _ _ _ mk mh rank
            (sortByStart (repo.segments.filter (rangeOk sd ed)))
            ⟨[], 0, [], []⟩ ?_ ?_ sp hsp
          · rw [List.nil_append]
            exact sorted_sortByStart _
          · intro sp2 hsp2
            exact absurd hsp2 (List.not_mem_nil sp2)
  | overnight sd ed mn =>
    simp only [runCall, detect_overnight_trips] at ht
    rcases hprof : repo.profile with _ | profile
    · rw [hprof] at ht
      exact Or.inl ht
    · rw [hprof] at ht
      dsimp only at ht
      split at ht
      · exact Or.inl ht
      · dsimp only at ht
        rcases mem_foldl_create_overnight_bounds _ store t ht with
          hin | ⟨c2, cs2, hmem, h1, h2⟩
        · exact Or.inl hin
        · right
          have hgood := onGroups_sorted_wf mn
            (overnightCandidates repo sd ed profile) [] ?_ ?_ (c2 :: cs2) hmem
          · rw [h1, h2]
            exact sorted_head_le_getLast_end c2 cs2 hgood.1 hgood.2
          · rw [List.nil_append]
            exact sorted_overnightCandidates repo sd ed profile
          · intro s hs
            rw [List.nil_append] at hs
            exact hwf s (mem_overnightCandidates_segments hs)
  | distance sd ed th gap rank =>
    simp only [runCall, detect_distance_based_trips] at ht
    rcases hprof : repo.profile with _ | profile
    · rw [hprof] at ht
      exact Or.inl ht
    · rw [hprof] at ht
      dsimp only at ht
      rcases hloc : profile.home_location with _ | hl
      · rw [hloc] at ht
        exact Or.inl ht
      · rw [hloc] at ht
        dsimp only at ht
        rcases mem_foldl_create_clustered_bounds rank _ store t ht with
          hin | ⟨c2, cs2, hmem, h1, h2⟩
        · exact Or.inl hin
        · right
          have hgood := dbClusters_sorted_wf gap _ [] ?_ ?_ (c2 :: cs2) hmem
          · rw [h1, h2]
            exact sorted_head_le_getLast_end c2 cs2 hgood.1 hgood.2
          · rw [List.nil_append]
            exact List.Pairwise.filter _ (sorted_sortByStart _)
          · intro s hs
            rw [List.nil_append] at hs
            exact hwf s
              (List.mem_filter.mp (mem_sortByStart.mp (List.mem_filter.mp hs).1)).1

/-- C9 witness: the bound applied to the trip materialized from the
well-formed repository `repoHomeRun` by the home-based detector. -/
theorem trips_end_ge_start_witness :
    tripHomeRun ∈ ([] : List Trip) ∨
      tripHomeRun.start_time ≤ tripHomeRun.end_time :=
  trips_end_ge_start repoHomeRun (Call.hb none none 0 0 rankAB) []
    tripHomeRun
    (by
      unfold WFRepo repoHomeRun
      decide)
    (by with_unfolding_all decide)

/-! Machinery for the primary-mode characterization. -/

/-- `keyVal` of a cons. -/
theorem keyVal_cons (x : String × ℚ) (D : List (String × ℚ)) (l : String) :
    keyVal (x :: D) l = (if x.1 = l then x.2 else 0) + keyVal D l := by
  unfold keyVal
  rw [List.filter_cons]
  split
  · rename_i h
    rw [if_pos (by simpa using h)]
    simp
  · rename_i h
    rw [if_neg (by simpa using h)]
    simp

/-- `keyVal` of an absent key is zero. -/
theorem keyVal_not_mem {D : List (String × ℚ)} {l : String}
    (h : l ∉ D.map Prod.fst) : keyVal D l = 0 := by
  unfold keyVal
  rw [List.filter_eq_nil_iff.mpr]
  · rfl
  · intro t ht hl
    exact h (List.mem_map.mpr ⟨t, ht, by simpa using hl⟩)

/-- With duplicate-free keys, `keyVal` at a member's key is its value. -/
theorem keyVal_mem {D : List (String × ℚ)} {q : String × ℚ}
    (hq : q ∈ D) (hnd : (D.map Prod.fst).Nodup) : keyVal D q.1 = q.2 := by
  induction D with
  | nil => cases hq
  | cons x D ih =>
    rw [List.map_cons, List.nodup_cons] at hnd
    rcases List.mem_cons.mp hq with rfl | hmem
    · rw [keyVal_cons, if_pos rfl, keyVal_not_mem hnd.1]
      simp
    · rw [keyVal_cons, if_neg, ih hmem hnd.2]
      · simp
      · intro hx
        exact hnd.1 (hx ▸ List.mem_map.mpr ⟨q, hmem, rfl⟩)

/-- `any (·.1 = k)` is membership of the key. -/
theorem any_key_iff (acc : List (String × ℚ)) (k : String) :
    (acc.any fun q => q.1 = k) = true ↔ k ∈ acc.map Prod.fst := by
  rw [List.any_eq_true]
  constructor
  · rintro ⟨q, hq, hqk⟩
    exact List.mem_map.mpr ⟨q, hq, of_decide_eq_true hqk⟩
  · intro hm
    rcases List.mem_map.mp hm with ⟨q, hq, rfl⟩
    exact ⟨q, hq, by simp⟩

/-- Upserting a pair whose key differs from the head commutes with the
cons. -/
theorem upsert_cons_ne (q p : String × ℚ) (acc : List (String × ℚ))
    (hq : q.1 ≠ p.1) : upsert (q :: acc) p = q :: upsert acc p := by
  unfold upsert
  rw [List.any_cons, decide_eq_false hq, Bool.false_or]
  split
  · rw [List.map_cons, if_neg hq]
  · rw [List.cons_append]

/-- The keys of an upsert. -/
theorem upsert_keys (acc : List (String × ℚ)) (p : String × ℚ) :
    (upsert acc p).map Prod.fst =
      if p.1 ∈ acc.map Prod.fst then acc.map Prod.fst
      else acc.map Prod.fst ++ [p.1] := by
  unfold upsert
  split
  · rename_i h
    rw [if_pos ((any_key_iff acc p.1).mp h), List.map_map]
    refine List.map_congr_left ?_
    intro t _
    simp only [Function.comp_apply]
    split <;> simp_all
  · rename_i h
    rw [if_neg fun hm => h ((any_key_iff acc p.1).mpr hm), List.map_append]
    rfl

/-- Upserting preserves duplicate-free keys. -/
theorem upsert_keys_nodup (acc : List (String × ℚ)) (p : String × ℚ)
    (h : (acc.map Prod.fst).Nodup) : ((upsert acc p).map Prod.fst).Nodup := by
  rw [upsert_keys]
  split
  · exact h
  · rename_i hm
    rw [List.nodup_append]
    exact ⟨h, List.nodup_singleton _, by simpa using hm⟩

/-- The value stored after an upsert. -/
theorem keyVal_upsert (p : String × ℚ) (l : String) :
    ∀ acc : List (String × ℚ), (acc.map Prod.fst).Nodup →
      keyVal (upsert acc p) l = keyVal acc l + if p.1 = l then p.2 else 0 := by
  intro acc
  induction acc with
  | nil =>
    intro _
    unfold upsert
    simp only [List.any_nil, Bool.false_eq_true, if_false, List.nil_append]
    rw [keyVal_cons]
    unfold keyVal
    simp
  | cons q acc ih =>
    intro hnd
    rw [List.map_cons, List.nodup_cons] at hnd
    by_cases hq : q.1 = p.1
    · unfold upsert
      rw [List.any_cons, decide_eq_true hq, Bool.true_or, if_pos rfl,
        List.map_cons, if_pos hq]
      have hmap : acc.map
          (fun t => if t.1 = p.1 then (t.1, t.2 + p.2) else t) = acc := by
        conv_rhs => rw [← List.map_id acc]
        refine List.map_congr_left ?_
        intro t ht
        simp only [id]
        rw [if_neg]
        intro htp
        exact hnd.1 (hq ▸ htp ▸ List.mem_map.mpr ⟨t, ht, rfl⟩)
      rw [hmap, keyVal_cons, keyVal_cons, hq]
      split <;> ring
    · rw [upsert_cons_ne q p acc hq, keyVal_cons, keyVal_cons, ih hnd.2]
      ring

/-- Characterization of the `defaultdict` fold: its keys are the labels in
first-encounter order without duplicates, and each key holds the summed
distance of its label. -/
theorem foldl_upsert_char (L : List (String × ℚ)) :
    ∀ acc : List (String × ℚ), (acc.map Prod.fst).Nodup →
      ((L.foldl upsert acc).map Prod.fst).Nodup ∧
      (L.foldl upsert acc).map Prod.fst =
        (L.map Prod.fst).foldl
          (fun ks x => if x ∈ ks then ks else ks ++ [x]) (acc.map Prod.fst) ∧
      ∀ l, keyVal (L.foldl upsert acc) l =
        keyVal acc l + ((L.filter fun p => p.1 = l).map fun p => p.2).sum := by
  induction L with
  | nil =>
    intro acc hnd
    refine ⟨hnd, rfl, ?_⟩
    intro l
    simp
  | cons x L ih =>
    intro acc hnd
    have hnd2 := upsert_keys_nodup acc x hnd
    obtain ⟨ha, hb, hc⟩ := ih (upsert acc x) hnd2
    refine ⟨ha, ?_, ?_⟩
    · rw [List.foldl_cons, hb, upsert_keys]
      simp only [List.map_cons, List.foldl_cons]
    · intro l
      rw [List.foldl_cons, hc l, keyVal_upsert x l acc hnd, List.filter_cons]
      by_cases hx : x.1 = l
      · rw [if_pos (show decide (x.1 = l) = true by simp [hx]),
          List.map_cons, List.sum_cons, if_pos hx]
        ring
      · rw [if_neg (show ¬ decide (x.1 = l) = true by simp [hx]), if_neg hx]
        ring

/-- `firstMax` is `none` only on the empty list. -/
theorem firstMax_eq_none {D : List (String × ℚ)} :
    firstMax D = none ↔ D = [] := by
  cases D with
  | nil => simp [firstMax]
  | cons p ps =>
    constructor
    · intro h
      exfalso
      rw [firstMax] at h
      rcases hf : firstMax ps with _ | r
      · simp only [hf] at h
        cases h
      · simp only [hf] at h
        by_cases hlt : p.2 < r.2
        · rw [if_pos hlt] at h
          cases h
        · rw [if_neg hlt] at h
          cases h
    · intro h
      cases h

/-- The leftmost maximum is a member that dominates the list. -/
theorem firstMax_spec (D : List (String × ℚ)) :
    ∀ r : String × ℚ, firstMax D = some r →
      r ∈ D ∧ ∀ q ∈ D, q.2 ≤ r.2 := by
  induction D with
  | nil => intro r h; cases h
  | cons p ps ih =>
    intro r h
    rw [firstMax] at h
    rcases hf : firstMax ps with _ | r2
    · simp only [hf, Option.some.injEq] at h
      subst h
      have hps : ps = [] := firstMax_eq_none.mp hf
      subst hps
      refine ⟨List.mem_cons_self _ _, ?_⟩
      intro q hq
      rcases List.mem_singleton.mp hq with rfl
      exact le_refl _
    · simp only [hf] at h
      obtain ⟨hmem, hdom⟩ := ih r2 hf
      by_cases hlt : p.2 < r2.2
      · rw [if_pos hlt, Option.some.injEq] at h
        subst h
        refine ⟨List.mem_cons_of_mem p hmem, ?_⟩
        intro q hq
        rcases List.mem_cons.mp hq with rfl | hq2
        · exact le_of_lt hlt
        · exact hdom q hq2
      · rw [if_neg hlt, Option.some.injEq] at h
        subst h
        refine ⟨List.mem_cons_self _ _, ?_⟩
        intro q hq
        rcases List.mem_cons.mp hq with rfl | hq2
        · exact le_refl _
        · exact le_trans (hdom q hq2) (le_of_not_lt hlt)

/-- The Python `max` fold computes the leftmost maximum. -/
theorem maxBySnd_eq_firstMax (D : List (String × ℚ)) :
    maxBySnd D = firstMax D := by
  have haux : ∀ (xs : List (String × ℚ)) (b : String × ℚ),
      xs.foldl (fun b y => if b.2 < y.2 then y else b) b =
        match firstMax xs with
        | none => b
        | some r => if b.2 < r.2 then r else b := by
    intro xs
    induction xs with
    | nil => intro b; rfl
    | cons x xs1 ih =>
      intro b
      rw [List.foldl_cons, ih (if b.2 < x.2 then x else b), firstMax]
      rcases hf : firstMax xs1 with _ | r
      · simp only [hf]
      · simp only [hf]
        by_cases h2 : x.2 < r.2
        · rw [if_pos h2]
          dsimp only
          by_cases h1 : b.2 < x.2
          · rw [if_pos h1, if_pos h2, if_pos (lt_trans h1 h2)]
          · rw [if_neg h1]
        · rw [if_neg h2]
          dsimp only
          by_cases h1 : b.2 < x.2
          · rw [if_pos h1, if_neg h2]
          · rw [if_neg h1,
              if_neg fun h3 => h1 (lt_of_lt_of_le h3 (le_of_not_lt h2))]
  cases D with
  | nil => rfl
  | cons x xs =>
    rw [maxBySnd, haux xs x, firstMax]
    rcases hf : firstMax xs with _ | r
    · simp only [hf]
    · simp only [hf]
      split <;> rfl

/-- Strengthening the predicate of a successful `find?` while keeping the
found element keeps the result. -/
theorem find?_stronger {α : Type} (l : List α) (p q : α → Bool) (r : α)
    (h : l.find? p = some r) (himp : ∀ x, q x = true → p x = true)
    (hr : q r = true) : l.find? q = some r := by
  induction l with
  | nil => cases h
  | cons x xs ih =>
    rw [List.find?_cons] at h ⊢
    rcases hp : p x with _ | _
    · rw [hp] at h
      have hqx : q x = false := by
        rcases hqx2 : q x with _ | _
        · rfl
        · rw [himp x hqx2] at hp
          cases hp
      rw [hqx]
      exact ih h
    · rw [hp] at h
      cases h
      rw [hr]

/-- `find?` with the dominates-all predicate returns the leftmost maximum. -/
theorem find?_firstMax (D : List (String × ℚ)) :
    D.find? (fun x => D.all fun q => decide (q.2 ≤ x.2)) = firstMax D := by
  induction D with
  | nil => rfl
  | cons p ps ih =>
    rw [firstMax]
    rcases hf : firstMax ps with _ | r
    · have hps : ps = [] := firstMax_eq_none.mp hf
      subst hps
      simp
    · simp only [hf]
      obtain ⟨hmem, hdom⟩ := firstMax_spec ps r hf
      by_cases hlt : p.2 < r.2
      · rw [if_pos hlt, List.find?_cons]
        have hp : ((p :: ps).all fun q => decide (q.2 ≤ p.2)) = false := by
          rcases hb : (p :: ps).all (fun q => decide (q.2 ≤ p.2)) with _ | _
          · rfl
          · rw [List.all_eq_true] at hb
            exact absurd
              (of_decide_eq_true (hb r (List.mem_cons_of_mem p hmem)))
              (not_le_of_lt hlt)
        rw [hp]
        dsimp only
        rw [hf] at ih
        refine find?_stronger ps _ _ r ih ?_ ?_
        · intro x hx
          rw [List.all_eq_true] at hx ⊢
          intro q hq
          exact hx q (List.mem_cons_of_mem p hq)
        · rw [List.all_eq_true]
          intro q hq
          rcases List.mem_cons.mp hq with rfl | hq2
          · simpa using le_of_lt hlt
          · simpa using hdom q hq2
      · rw [if_neg hlt, List.find?_cons]
        have hp : ((p :: ps).all fun q => decide (q.2 ≤ p.2)) = true := by
          rw [List.all_eq_true]
          intro q hq
          rcases List.mem_cons.mp hq with rfl | hq2
          · simp
          · simpa using le_trans (hdom q hq2) (le_of_not_lt hlt)
        rw [hp]

/-- `find?` commutes with mapping the key projection. -/
theorem find?_map_fst (D : List (String × ℚ)) (p : String → Bool) :
    (D.map Prod.fst).find? p = (D.find? fun x => p x.1).map Prod.fst := by
  induction D with
  | nil => rfl
  | cons x xs ih =>
    rw [List.map_cons, List.find?_cons, List.find?_cons]
    rcases hp : p x.1 with _ | _
    · dsimp only
      exact ih
    · dsimp only
      rfl

/-- `find?` only inspects its predicate on members. -/
theorem find?_congr_mem {α : Type} (l : List α) (p q : α → Bool)
    (h : ∀ x ∈ l, p x = q x) : l.find? p = l.find? q := by
  induction l with
  | nil => rfl
  | cons x xs ih =>
    rw [List.find?_cons, List.find?_cons, h x (List.mem_cons_self x xs)]
    rcases hq : q x with _ | _
    · dsimp only
      exact ih fun t ht => h t (List.mem_cons_of_mem x ht)
    · dsimp only

/-- `all` over a mapped list. -/
theorem all_map_comp {α β : Type} (l : List α) (f : α → β) (p : β → Bool) :
    (l.map f).all p = l.all fun a => p (f a) := by
  induction l with
  | nil => rfl
  | cons x xs ih => rw [List.map_cons, List.all_cons, List.all_cons, ih]

/-- `all` only inspects its predicate on members. -/
theorem all_congr_mem {α : Type} (l : List α) (p q : α → Bool)
    (h : ∀ x ∈ l, p x = q x) : l.all p = l.all q := by
  induction l with
  | nil => rfl
  | cons x xs ih =>
    rw [List.all_cons, List.all_cons, h x (List.mem_cons_self x xs),
      ih fun t ht => h t (List.mem_cons_of_mem x ht)]

/-- C4: the primary transport mode computed by `_create_trip` agrees with
the spec-side definition — the first-encountered movement-mode label whose
summed activity distance is maximal, absent when no member segment carries
an activity payload — and the spec's tie example (walking 500 before
driving 500) resolves to walking. -/
theorem primary_mode_spec_correct :
    (∀ segs : List Seg, primary_mode segs = spec_primary_mode segs) ∧
    primary_mode [segWalk, segDrive] = some "walking" ∧
    ∀ segs : List Seg, (∀ s ∈ segs, s.activity = none) →
      primary_mode segs = none := by
  have hmain : ∀ segs : List Seg,
      primary_mode segs = spec_primary_mode segs := by
    intro segs
    obtain ⟨hnd, hkeys, hvals⟩ :=
      foldl_upsert_char (segLabels segs) [] List.nodup_nil
    have hK : spec_label_list segs = (modeDistances segs).map Prod.fst := by
      unfold spec_label_list dedupFirst modeDistances
      exact hkeys.symm
    have hsum : ∀ l, spec_sum_for segs l = keyVal (modeDistances segs) l := by
      intro l
      unfold spec_sum_for
      rw [show keyVal (modeDistances segs) l =
        keyVal ([] : List (String × ℚ)) l +
          ((List.filter (fun p => p.1 = l) (segLabels segs)).map
            fun p => p.2).sum from hvals l]
      unfold keyVal
      simp
    unfold primary_mode spec_primary_mode
    rw [maxBySnd_eq_firstMax, ← find?_firstMax]
    simp only [hsum, hK]
    rw [find?_map_fst]
    congr 1
    refine find?_congr_mem _ _ _ ?_
    intro x hx
    rw [all_map_comp]
    refine all_congr_mem _ _ _ ?_
    intro q hq
    rw [keyVal_mem hq hnd, keyVal_mem hx hnd]
  refine ⟨hmain, ?_, ?_⟩
  · with_unfolding_all decide
  · intro segs hall
    have hlab : segLabels segs = [] := by
      unfold segLabels
      rw [List.filterMap_eq_nil_iff]
      intro s hs
      rw [hall s hs]
      rfl
    unfold primary_mode modeDistances
    rw [hlab]
    rfl

/-- C4 witness: the characterization applied to the concrete two-activity
member list, discharging its membership hypothesis at the tie example. -/
theorem primary_mode_spec_correct_witness :
    primary_mode [segWalk, segDrive] = spec_primary_mode [segWalk, segDrive] :=
  primary_mode_spec_correct.1 [segWalk, segDrive]

/-- C1 witness: the invariant applied to a concrete run (the two-visit
overnight repository, overnight then memory replay) from the empty store. -/
theorem trip_dedup_key_invariant_witness :
    NoDupKeys (runCalls repoDupDest []
      [Call.overnight none none 1, Call.tm none none]) :=
  trip_dedup_key_invariant.2 repoDupDest
    [Call.overnight none none 1, Call.tm none none] [] List.nodup_nil

end GTA
